import Mathlib

/-!
Shallow embedding of the FbrefAPI scraping and cleaning pipeline
(src/scraper/fbref_scraper.py and its subclasses) together with proofs
about the behaviour of its table parsing, id extraction, type coercion,
reassembly and cleaning functions.

Python dictionaries are modelled as association lists in insertion
order (`List (String × α)`); assignment `d[k] = v` is `dictInsert`
(overwrite in place, append when the key is new), which matches the
semantics of insertion-ordered Python dicts.  Regular expressions are
modelled by their `re.findall` semantics: a pattern is a function from
the subject string to the list of matched strings.
-/

set_option autoImplicit false

namespace Fbref

universe u v

/-! ### Python dict primitives -/

/-- Lookup in an insertion-ordered dict: value of the first entry with the key. -/
def dlookup {α : Type u} (d : List (String × α)) (k : String) : Option α :=
  (d.find? (fun p => p.1 = k)).map (fun p => p.2)

/-- Python dict assignment `d[k] = v`: overwrite in place when the key exists,
append otherwise. -/
def dictInsert {α : Type u} (d : List (String × α)) (k : String) (v : α) :
    List (String × α) :=
  if d.any (fun p => p.1 = k) then
    d.map (fun p => if p.1 = k then (k, v) else p)
  else
    d ++ [(k, v)]

/-- Error-propagating map, the semantics of a Python list comprehension in
which each element may raise: the first raise aborts the whole list. -/
def mapE {α : Type u} {β : Type v} (f : α → Except String β) :
    List α → Except String (List β)
  | [] => .ok []
  | a :: as =>
    match f a with
    | .error e => .error e
    | .ok b =>
      match mapE f as with
      | .error e => .error e
      | .ok bs => .ok (b :: bs)

/-! ### String primitives mirroring Python operations -/

/-- Does `pat` occur at the start of `s` (over character lists)? -/
def startsWithL : List Char → List Char → Bool
  | [], _ => true
  | _ :: _, [] => false
  | p :: ps, c :: cs => p = c && startsWithL ps cs

/-- Does `pat` occur as a contiguous run inside `s`?  Models the Python
substring test `pat in s`. -/
def containsSubL (pat : List Char) : List Char → Bool
  | [] => startsWithL pat []
  | c :: cs => startsWithL pat (c :: cs) || containsSubL pat cs

/-- Python `needle in hay` on strings. -/
def pyIn (needle hay : String) : Bool :=
  containsSubL needle.data hay.data

/-- Digit run to a natural number. -/
def digitsToNat (ds : List Char) : Nat :=
  ds.foldl (fun n c => 10 * n + (c.toNat - '0'.toNat)) 0

/-- Python `str.strip()`: remove whitespace from both ends (on char lists,
so that proofs and witnesses can evaluate it). -/
def pyTrimL (cs : List Char) : List Char :=
  (((cs.dropWhile Char.isWhitespace).reverse).dropWhile Char.isWhitespace).reverse

/-- Python `s.split(sep)` for a one-character separator (the only kind the
scraper uses): `"".split(sep)` is `[""]`, separators at the ends produce
empty pieces. -/
def splitOnCharL (sep : Char) : List Char → List (List Char)
  | [] => [[]]
  | c :: cs =>
    let r := splitOnCharL sep cs
    if c = sep then [] :: r else (c :: r.headD []) :: r.tail

/-- `s.split(sep)` on strings, one-character separator. -/
def pySplitChar (sep : Char) (s : String) : List String :=
  (splitOnCharL sep s.data).map List.asString

/-- Python `int(s)` on a string: optional surrounding whitespace, an optional
sign, then a nonempty run of decimal digits; anything else raises.
(Digit-group underscores are not modelled.) -/
def pyInt? (x : String) : Option Int :=
  let t := pyTrimL x.data
  let core : Int × List Char :=
    match t with
    | '+' :: r => (1, r)
    | '-' :: r => (-1, r)
    | r => (1, r)
  if core.2 ≠ [] ∧ core.2.all Char.isDigit then
    some (core.1 * (digitsToNat core.2 : Int))
  else
    none

/-- The value of a Python float, modelled exactly: a rational for finite
values, plus infinities and nan. -/
inductive PyFloat : Type where
  | num (q : ℚ)
  | inf
  | ninf
  | nan
  deriving DecidableEq, Repr

/-- Parse the digits/fraction/exponent part of a float literal. -/
def pyFloatCore? (cs : List Char) : Option ℚ :=
  let ip := cs.takeWhile Char.isDigit
  let r1 := cs.dropWhile Char.isDigit
  let fracState : Option (List Char × List Char) :=
    match r1 with
    | '.' :: r2 => some (r2.takeWhile Char.isDigit, r2.dropWhile Char.isDigit)
    | _ => some ([], r1)
  match fracState with
  | none => none
  | some (fp, r3) =>
    if ip = [] ∧ fp = [] then none
    else
      let mant : ℚ := (digitsToNat ip : ℚ) + (digitsToNat fp : ℚ) / ((10 : ℚ) ^ fp.length)
      match r3 with
      | [] => some mant
      | e :: r4 =>
        if e = 'e' ∨ e = 'E' then
          let expState : Int × List Char :=
            match r4 with
            | '+' :: r5 => (1, r5)
            | '-' :: r5 => (-1, r5)
            | r5 => (1, r5)
          if expState.2 ≠ [] ∧ expState.2.all Char.isDigit then
            let en := digitsToNat expState.2
            if expState.1 ≥ 0 then some (mant * (10 : ℚ) ^ en)
            else some (mant / (10 : ℚ) ^ en)
          else none
        else none

/-- Python `float(s)` on a string: optional whitespace and sign, then either
a decimal literal (digits, optional fraction, optional exponent) or one of
the special spellings inf/infinity/nan (case-insensitive). -/
def pyFloat? (x : String) : Option PyFloat :=
  let t := pyTrimL x.data
  let signed : Bool × List Char :=
    match t with
    | '+' :: r => (false, r)
    | '-' :: r => (true, r)
    | r => (false, r)
  let low := (signed.2.map Char.toLower).asString
  if low = "inf" ∨ low = "infinity" then
    some (if signed.1 then PyFloat.ninf else PyFloat.inf)
  else if low = "nan" then
    some PyFloat.nan
  else
    match pyFloatCore? signed.2 with
    | some q => some (PyFloat.num (if signed.1 then -q else q))
    | none => none

/-! ### The HTML model

A table row carries its `class` attribute values, the stripped text of its
`th`/`td` cells, and the `href` attributes of the anchors it contains; a
table carries its rows and optional caption text.  This is all the scraper
ever reads from the BeautifulSoup objects. -/

structure HRow : Type where
  classes : List String
  cells : List String
  hrefs : List String
  deriving DecidableEq, Repr

structure HTable : Type where
  caption : Option String
  rows : List HRow
  deriving DecidableEq, Repr

/-- A regular expression is modelled by its `re.findall` semantics: the list
of matched strings (first capture group, or whole match) in the subject. -/
def RegexFn : Type := String → List String

/-! ### fbref_scraper.py: FbrefScraper helper methods -/

/-- `parse_table_rows`: all `tr` elements whose class attribute does not
contain `spacer` (a missing class attribute is the empty list). -/
def parse_table_rows (table : HTable) : List HRow :=
  table.rows.filter (fun row => ¬ row.classes.contains "spacer")

/-- `parse_row_data`: the stripped text of every `th`/`td` cell of the row. -/
def parse_row_data (clean_row : HRow) : List String :=
  clean_row.cells

/-- `parse_all_row_data`: cell texts of every clean row. -/
def parse_all_row_data (clean_rows : List HRow) : List (List String) :=
  clean_rows.map parse_row_data

/-- `format_field`: strip, lowercase, replace internal spaces by underscores. -/
def format_field (field : String) : String :=
  (((pyTrimL field.data).map Char.toLower).map
    (fun c => if c = ' ' then '_' else c)).asString

/-- Loop of `add_suffix_to_repeat_headers`, carrying the `header_count` dict:
on a repeat the stored count is incremented and the previous count becomes
the suffix; a first occurrence keeps the bare name. -/
def add_suffix_aux (count : List (String × Nat)) : List String → List String
  | [] => []
  | h :: t =>
    match dlookup count h with
    | some n => (h ++ toString n) :: add_suffix_aux (dictInsert count h (n + 1)) t
    | none => h :: add_suffix_aux (dictInsert count h 1) t

/-- `add_suffix_to_repeat_headers`. -/
def add_suffix_to_repeat_headers (headers : List String) : List String :=
  add_suffix_aux [] headers

/-- Formatted and de-duplicated headers of a header row. -/
def cleanHeaders (headers : List String) : List String :=
  add_suffix_to_repeat_headers (headers.map format_field)

/-- The length of the shortest row: `zip(*row_data)` in Python truncates the
transpose to the shortest row. -/
def pyMinLen (rows : List (List String)) : Nat :=
  match rows with
  | [] => 0
  | r :: rs => (rs.map List.length).foldl min r.length

/-- `zip(*row_data)`: the column-wise transpose, truncated to the shortest
row; empty when there are no rows. -/
def pyTranspose (rows : List (List String)) : List (List String) :=
  match rows with
  | [] => []
  | _ :: _ => (List.range (pyMinLen rows)).map (fun j => rows.map (fun r => r.getD j ""))

/-- `convert_row_data_to_dict`: first row is the header row; headers are
formatted and de-duplicated, then zipped against the column-wise transpose of
the data rows.  (On an empty input the source raises IndexError; that case is
unreachable under the hypotheses of the theorems below.) -/
def convert_row_data_to_dict (all_row_data : List (List String)) :
    List (String × List String) :=
  match all_row_data with
  | [] => []
  | headers :: row_data =>
    ((cleanHeaders headers).zip (pyTranspose row_data)).foldl
      (fun d p => dictInsert d p.1 p.2) []

/-- First cell of a row of cell texts.  The source indexes `row[0]` and would
raise on an empty row; theorems that rely on this carry a nonemptiness
hypothesis. -/
def firstCell (row : List String) : String :=
  row.headD ""

/-- Count of trailing rows whose first cell contains `"Total"`, scanning from
the end until a non-matching row: loop of `detect_totals_rows` over the
reversed row list. -/
def countTotals : List (List String) → Nat
  | [] => 0
  | row :: rest => if pyIn "Total" (firstCell row) then countTotals rest + 1 else 0

/-- `detect_totals_rows`. -/
def detect_totals_rows (all_row_data : List (List String)) : Nat :=
  countTotals all_row_data.reverse

/-- `parse_table_data`: parse rows, optionally skip the first row, with
`exclude_totals` overriding `drop_rows` by the detected totals count, then
drop that many trailing rows and build the column dict. -/
def parse_table_data (table : HTable) (skip_row : Bool) (drop_rows : Nat)
    (exclude_totals : Bool) : List (String × List String) :=
  let all0 := parse_all_row_data (parse_table_rows table)
  let all1 := if skip_row then all0.tail else all0
  let drop := if exclude_totals then detect_totals_rows all1 else drop_rows
  let all2 := if drop > 0 then all1.take (all1.length - drop) else all1
  convert_row_data_to_dict all2

/-- Removal of every (non-overlapping, left-to-right) occurrence of the
literal `"Table"`: Python `table_name.replace("Table", "")`. -/
def removeTableL : List Char → List Char
  | 'T' :: 'a' :: 'b' :: 'l' :: 'e' :: rest => removeTableL rest
  | c :: cs => c :: removeTableL cs
  | [] => []

/-- `get_table_name`: caption text stripped; when `remove_table` is set and
the name contains `"Table"`, every occurrence of `"Table"` is removed (Python
`str.replace` replaces all occurrences) and the result stripped again.
`none` when the table has no caption. -/
def get_table_name (table : HTable) (remove_table : Bool) : Option String :=
  match table.caption with
  | none => none
  | some c =>
    let table_name := (pyTrimL c.data).asString
    if pyIn "Table" table_name ∧ remove_table then
      some ((pyTrimL (removeTableL table_name.data)).asString)
    else
      some table_name

/-- Table name used during caption matching; the source passes the result of
`get_table_name` straight to `re.findall`, which requires a string, so the
theorems assume every table has a caption. -/
def tableNameD (table : HTable) : String :=
  (get_table_name table true).getD ""

/-- Per-pattern step of the inner loop of `get_tables_from_caption`: record
the `(table, match value)` pair when the pattern matched and that match value
was not recorded before.  The two parallel lists `tables` and `table_names`
of the source grow in lockstep and are modelled as one list of pairs. -/
def gtfcPatStep (table : HTable) (acc : List (HTable × List String))
    (p : RegexFn) : List (HTable × List String) :=
  let table_name := p (tableNameD table)
  if table_name ≠ [] ∧ ¬ (acc.map Prod.snd).contains table_name then
    acc ++ [(table, table_name)]
  else acc

/-- Per-table step of `get_tables_from_caption`: try each pattern in order. -/
def gtfcTableStep (patterns : List RegexFn) (table : HTable)
    (acc : List (HTable × List String)) : List (HTable × List String) :=
  patterns.foldl (gtfcPatStep table) acc

/-- The selected `(table, match value)` pairs of `get_tables_from_caption`. -/
def gtfcPairs (all_tables : List HTable) (patterns : List RegexFn) :
    List (HTable × List String) :=
  all_tables.foldl (fun acc t => gtfcTableStep patterns t acc) []

/-- `get_tables_from_caption`: `none` when no table matched. -/
def get_tables_from_caption (all_tables : List HTable) (patterns : List RegexFn) :
    Option (List HTable) :=
  let pairs := gtfcPairs all_tables patterns
  if pairs.length > 0 then some (pairs.map Prod.fst) else none

/-- `parse_pattern_from_url`: first pattern with a nonempty `findall` wins,
returning its first match; `none` when no pattern matches.  (With an empty
pattern list the source raises NameError; theorems that depend on this
carry a nonemptiness hypothesis.) -/
def parse_pattern_from_url (patterns : List RegexFn) (url : String) : Option String :=
  match patterns with
  | [] => none
  | p :: ps =>
    match p url with
    | m :: _ => some m
    | [] => parse_pattern_from_url ps url

/-- Inner loop of the url-item extractors over one row: scan the hrefs and
keep the first truthy match (Python `if item:` also rejects the empty
string). -/
def rowItem (patterns : List RegexFn) (row : HRow) : Option String :=
  row.hrefs.findSome? (fun href =>
    match parse_pattern_from_url patterns href with
    | some item => if item = "" then none else some item
    | none => none)

/-- Outer loop of the url-item extractors: append the match of each row that
has one; rows without a truthy match contribute nothing. -/
def itemsAux (patterns : List RegexFn) : List HRow → List String
  | [] => []
  | row :: rest =>
    match rowItem patterns row with
    | some item => item :: itemsAux patterns rest
    | none => itemsAux patterns rest

/-- `get_all_items_from_table_urls`. -/
def get_all_items_from_table_urls (table : HTable) (patterns : List RegexFn) :
    List String :=
  itemsAux patterns (parse_table_rows table)

/-- `reorder_dict_keys`: new dict with only the keys present in both the
order list and the dict, in the order given. -/
def reorder_dict_keys {α : Type u} (data_dict : List (String × α))
    (new_order : List String) : List (String × α) :=
  new_order.filterMap (fun k => (dlookup data_dict k).map (fun v => (k, v)))

/-- A cell as fed to the type-coercion helpers: `None` or a string. -/
abbrev StrCell := Option String

/-- One converted column of `convert_dict_dtypes`: untouched strings, or the
result of an int/float conversion. -/
inductive ConvCol : Type where
  | strs (l : List StrCell)
  | ints (l : List (Option Int))
  | floats (l : List (Option PyFloat))
  deriving DecidableEq, Repr

/-- Element conversion of `convert_list_from_str` with `convert_to='int'`:
`int(x) if x is not None and x != '' else None`. -/
def cellInt (c : StrCell) : Except String (Option Int) :=
  match c with
  | none => .ok none
  | some s =>
    if s = "" then .ok none
    else
      match pyInt? s with
      | some n => .ok (some n)
      | none => .error ("invalid literal for int() with base 10: " ++ s)

/-- Element conversion of `convert_list_from_str` with `convert_to='float'`. -/
def cellFloat (c : StrCell) : Except String (Option PyFloat) :=
  match c with
  | none => .ok none
  | some s =>
    if s = "" then .ok none
    else
      match pyFloat? s with
      | some q => .ok (some q)
      | none => .error ("could not convert string to float: " ++ s)

/-- `convert_list_from_str`: convert a whole column; any other `convert_to`
value returns the column unchanged. -/
def convert_list_from_str (list_of_strings : List StrCell) (convert_to : String) :
    Except String ConvCol :=
  if convert_to = "int" then
    match mapE cellInt list_of_strings with
    | .error e => .error e
    | .ok l => .ok (ConvCol.ints l)
  else if convert_to = "float" then
    match mapE cellFloat list_of_strings with
    | .error e => .error e
    | .ok l => .ok (ConvCol.floats l)
  else
    .ok (ConvCol.strs list_of_strings)

/-- Body of the key loop of `convert_dict_dtypes`: int keys are converted to
integers, remaining float keys to floats, all other keys untouched. -/
def convEntry (int_keys float_keys : List String) (p : String × List StrCell) :
    Except String (String × ConvCol) :=
  if p.1 ∈ int_keys then
    match convert_list_from_str p.2 "int" with
    | .error e => .error e
    | .ok col => .ok (p.1, col)
  else if p.1 ∈ float_keys then
    match convert_list_from_str p.2 "float" with
    | .error e => .error e
    | .ok col => .ok (p.1, col)
  else .ok (p.1, ConvCol.strs p.2)

/-- `convert_dict_dtypes`: convert every designated column in iteration
order; the first conversion error aborts the request. -/
def convert_dict_dtypes (data_dict : List (String × List StrCell))
    (int_keys float_keys : List String) : Except String (List (String × ConvCol)) :=
  mapE (convEntry int_keys float_keys) data_dict

/-- Is `c` an ASCII lowercase letter (the class `[a-z]`)? -/
def isLowerAZ (c : Char) : Bool :=
  'a' ≤ c ∧ c ≤ 'z'

/-- `clean_team_name`: remove a leading 2-3 lowercase-letter abbreviation
(the regex `^[a-z]{2,3}(.*)` with a greedy counted repetition), then, when
the name contains a dash, keep everything before the last dash joined by
spaces. -/
def clean_team_name (team_name : String) : String :=
  let cs := team_name.data
  let afterAbbrev : List Char :=
    match cs with
    | a :: b :: rest =>
      if isLowerAZ a ∧ isLowerAZ b then
        match rest with
        | c :: rest2 => if isLowerAZ c then rest2 else rest
        | [] => []
      else cs
    | _ => cs
  let s1 := afterAbbrev.asString
  let parts := pySplitChar '-' s1
  if parts.length > 1 then String.intercalate " " parts.dropLast else s1

/-- Match of the regex `(\d+)\s*\((\d+)\)` anchored at the current position:
a nonempty digit run, optional whitespace, a parenthesized nonempty digit
run.  Returns the two capture groups. -/
def matchGfGaAt (cs : List Char) : Option (String × String) :=
  let d1 := cs.takeWhile Char.isDigit
  if d1 = [] then none
  else
    let r1 := (cs.dropWhile Char.isDigit).dropWhile Char.isWhitespace
    match r1 with
    | '(' :: r2 =>
      let d2 := r2.takeWhile Char.isDigit
      if d2 = [] then none
      else
        match r2.dropWhile Char.isDigit with
        | ')' :: _ => some (d1.asString, d2.asString)
        | _ => none
    | _ => none

/-- Leftmost match of `(\d+)\s*\((\d+)\)` in the string (the first element of
`re.findall`). -/
def findGfGa : List Char → Option (String × String)
  | [] => none
  | c :: cs =>
    match matchGfGaAt (c :: cs) with
    | some r => some r
    | none => findGfGa cs

/-- `clean_gf_ga`: when the goals entry contains shootout data `X (Y)` keep
only the first capture `X`, otherwise return the entry unchanged. -/
def clean_gf_ga (gf_ga : String) : String :=
  match findGfGa gf_ga.data with
  | some r => r.1
  | none => gf_ga

/-! ### fbref_stats_scraper.py: FbrefStatsScraper helper methods -/

/-- `parse_stat_table_rows`: pick the header row (second row when
`skip_row`), then keep only the data rows whose `th`/`td` count equals the
header cell count.  `none` models the IndexError raised when the table has
too few rows for the requested header position. -/
def parse_stat_table_rows (stat_table : HTable) (skip_row : Bool) :
    Option (List HRow) :=
  let clean_rows := parse_table_rows stat_table
  let split : Option (HRow × List HRow) :=
    if skip_row then
      match clean_rows with
      | _ :: hr :: rest => some (hr, rest)
      | _ => none
    else
      match clean_rows with
      | hr :: rest => some (hr, rest)
      | [] => none
  split.map (fun s =>
    s.1 :: s.2.filter (fun row => row.cells.length = s.1.cells.length))

/-- `parse_stat_table_data`: parse the length-filtered rows, handle
`exclude_totals`/`drop_rows` like `parse_table_data`, re-check every row
against the header length (dropping mismatches while keeping order), and
build the column dict.  `none` models the IndexErrors of the source on
degenerate tables. -/
def parse_stat_table_data (stat_table : HTable) (skip_row : Bool)
    (drop_rows : Nat) (exclude_totals : Bool) :
    Option (List (String × List String)) :=
  match parse_stat_table_rows stat_table skip_row with
  | none => none
  | some cleaner_rows =>
    let all0 := parse_all_row_data cleaner_rows
    let drop := if exclude_totals then detect_totals_rows all0 else drop_rows
    let all1 := if drop > 0 then all0.take (all0.length - drop) else all0
    match all1 with
    | [] => none
    | hr :: _ =>
      some (convert_row_data_to_dict (all1.filter (fun r => r.length = hr.length)))

/-- `get_all_items_from_stat_table_urls`: the url-item extraction run over
the length-filtered stat-table rows. -/
def get_all_items_from_stat_table_urls (stat_table : HTable)
    (patterns : List RegexFn) (skip_row : Bool) : Option (List String) :=
  (parse_stat_table_rows stat_table skip_row).map (itemsAux patterns)

/-- A cleaned cell value in a per-category stat column: `clean_player_position`
may turn a string into a list of strings, so columns become heterogeneous. -/
inductive PyVal : Type where
  | vnone
  | str (s : String)
  | int (n : Int)
  | list (l : List PyVal)
  | dict (d : List (String × PyVal))
  deriving Repr

/-- `clean_player_position`: split a multi-valued position on commas. -/
def clean_player_position (position : String) : PyVal :=
  let parts := pySplitChar ',' position
  if parts.length > 1 then PyVal.list (parts.map PyVal.str) else PyVal.str position

/-- `clean_player_age`: keep only the years of a `yy-ddd` age. -/
def clean_player_age (age : String) : PyVal :=
  let parts := pySplitChar '-' age
  if parts.length > 1 then PyVal.str (parts.headD "") else PyVal.str age

/-- `clean_player_min`: remove thousands-separator commas
(`min.replace(',','')`). -/
def clean_player_min (min : String) : PyVal :=
  PyVal.str ((min.data.filter (fun c => c ≠ ',')).asString)

/-- The `cleaning_map` of `clean_stat_dict_columns`, in iteration order. -/
def cleaningMap : List (String × (String → PyVal)) :=
  [("positions", clean_player_position),
   ("age", clean_player_age),
   ("min", clean_player_min),
   ("opponent", fun s => PyVal.str (clean_team_name s)),
   ("squad", fun s => PyVal.str (clean_team_name s)),
   ("gf", fun s => PyVal.str (clean_gf_ga s)),
   ("ga", fun s => PyVal.str (clean_gf_ga s)),
   ("team_name", fun s => PyVal.str (clean_team_name s))]

/-- One `sub_stat_dict[column] = [method(x) for x in sub_stat_dict[column]]`
assignment: applied only when the column exists.  At the call site every
cell is still a raw string. -/
def applyCleaner (d : List (String × List PyVal)) (column : String)
    (method : String → PyVal) : List (String × List PyVal) :=
  if (dlookup d column).isSome then
    d.map (fun p =>
      if p.1 = column then
        (p.1, p.2.map (fun v =>
          match v with
          | PyVal.str s => method s
          | other => other))
      else p)
  else d

/-- `clean_stat_dict_columns`: apply each cleaner of the cleaning map in
order to its column when present.  The input columns are raw strings. -/
def clean_stat_dict_columns (sub_stat_dict : List (String × List String)) :
    List (String × List PyVal) :=
  cleaningMap.foldl (fun d p => applyCleaner d p.1 p.2)
    (sub_stat_dict.map (fun p => (p.1, p.2.map PyVal.str)))

/-! ### Reassembly: change_tms_dict_orientation / change_tss_dict_orientation

One output record per row index, with a `meta_data` sub-dict for fields in
the configured meta-data list and one `stats` sub-dict per category.  Field
values are `Option α`: `none` models the `except` branch that stores `None`
when indexing a category column at the row index fails. -/

/-- One reassembled output record. -/
structure StatRecord (α : Type u) : Type u where
  meta_data : List (String × Option α)
  stats : List (String × List (String × Option α))
  deriving DecidableEq, Repr

/-- Inner field loop of the reorientation functions, carrying `used_cols`,
the `meta_data` dict, and the stats sub-dict of the current category. -/
def processFields {α : Type u} (ml : List String) (i : Nat) :
    List (String × List α) → List String → List (String × Option α) →
    List (String × Option α) →
    List String × List (String × Option α) × List (String × Option α)
  | [], used, meta, cst => (used, meta, cst)
  | (stat, vals) :: rest, used, meta, cst =>
    if stat ∈ ml then
      processFields ml i rest used (dictInsert meta stat vals[i]?) cst
    else if stat ∈ used then
      processFields ml i rest used meta cst
    else
      match vals[i]? with
      | some v => processFields ml i rest (used ++ [stat]) meta (dictInsert cst stat (some v))
      | none => processFields ml i rest used meta (dictInsert cst stat none)

/-- Outer category loop of the reorientation functions. -/
def processCats {α : Type u} (ml : List String) (i : Nat) :
    List (String × List (String × List α)) → List String →
    List (String × Option α) → List (String × List (String × Option α)) →
    List (String × Option α) × List (String × List (String × Option α))
  | [], _, meta, statsD => (meta, statsD)
  | (stat_id, fields) :: rest, used, meta, statsD =>
    let step := processFields ml i fields used meta []
    processCats ml i rest step.1 step.2.1 (dictInsert statsD stat_id step.2.2)

/-- The output record for one row index. -/
def buildRecord {α : Type u} (ml : List String)
    (cats : List (String × List (String × List α))) (i : Nat) : StatRecord α :=
  let res := processCats ml i cats [] [] []
  ⟨res.1, res.2⟩

/-- `change_tms_dict_orientation`: the number of team-match units is the
length of `schedule.match_id`; `none` models the KeyError when the reference
column is missing. -/
def change_tms_dict_orientation {α : Type u} (ml : List String)
    (team_match_stats_dict_clean : List (String × List (String × List α))) :
    Option (List (StatRecord α)) :=
  (dlookup team_match_stats_dict_clean "schedule").bind (fun sched =>
    (dlookup sched "match_id").map (fun ids =>
      (List.range ids.length).map (buildRecord ml team_match_stats_dict_clean)))

/-- `change_tss_dict_orientation`: same loop with reference column
`stats.team_id`. -/
def change_tss_dict_orientation {α : Type u} (ml : List String)
    (team_season_stats_dict_clean : List (String × List (String × List α))) :
    Option (List (StatRecord α)) :=
  (dlookup team_season_stats_dict_clean "stats").bind (fun st =>
    (dlookup st "team_id").map (fun ids =>
      (List.range ids.length).map (buildRecord ml team_season_stats_dict_clean)))

/-! ### fbref_leagues_scraper.py: the leagues-by-country pipeline

Only the post-fetch part is embedded: the input is the raw dict produced by
`scrape_leagues_data`, one optional column dict per league category (`None`
when the corresponding tables were not found). -/

/-- A cell of a leagues column: raw string, converted integer, or null. -/
inductive LCell : Type where
  | str (v : String)
  | int (n : Int)
  | null
  deriving DecidableEq, Repr

/-- Errors of the leagues pipeline, separated by kind so that the domain
`ValueError` is distinguishable from incidental exceptions. -/
inductive LeaguesErr : Type where
  | valueError
  | coercion (msg : String)
  | keyError (k : String)
  | indexError
  deriving DecidableEq, Repr

/-- A raw or partially cleaned per-category column dict. -/
abbrev CatDict := List (String × List LCell)

/-- `int(x) if x is not None and x != '' else None` on a leagues cell. -/
def convert_lcell_int : LCell → Except LeaguesErr LCell
  | .null => .ok .null
  | .int n => .ok (.int n)
  | .str v =>
    if v = "" then .ok .null
    else
      match pyInt? v with
      | some n => .ok (.int n)
      | none => .error (.coercion ("invalid literal for int() with base 10: " ++ v))

/-- Error-propagating map for the leagues pipeline. -/
def mapLE {α : Type u} {β : Type v} (f : α → Except LeaguesErr β) :
    List α → Except LeaguesErr (List β)
  | [] => .ok []
  | a :: as =>
    match f a with
    | .error e => .error e
    | .ok b =>
      match mapLE f as with
      | .error e => .error e
      | .ok bs => .ok (b :: bs)

/-- `convert_leagues_dict_dtypes`: int keys are `['league_id']`, no float
keys; other columns untouched. -/
def convert_leagues_dict_dtypes (leagues_data_dict : CatDict) :
    Except LeaguesErr CatDict :=
  mapLE
    (fun p =>
      if p.1 = "league_id" then
        match mapLE convert_lcell_int p.2 with
        | .error e => .error e
        | .ok l => .ok (p.1, l)
      else .ok p)
    leagues_data_dict

/-- `reorder_leagues_dict_keys`: project onto the fixed final key order. -/
def reorder_leagues_dict_keys (leagues_data_dict : CatDict) : CatDict :=
  reorder_dict_keys leagues_data_dict
    ["league_id", "competition_name", "gender", "first_season", "last_season", "tier"]

/-- One entry of the reoriented leagues output:
`{'league_type': key, 'leagues': [row dicts]}`. -/
structure LeagueEntry : Type where
  league_type : String
  leagues : List (List (String × LCell))
  deriving DecidableEq, Repr

/-- A value of the cleaned leagues dict, as tested by the all-null check
`all(value is None for value in leagues_data_dict_clean.values())`. -/
inductive LeaguesVal : Type where
  | vnone
  | vlist (l : List LeagueEntry)
  deriving DecidableEq, Repr

/-- `change_league_dict_orientation`: one entry per league category, each
with one row dict per league id; row count is the length of the
`league_id` column.  KeyError/IndexError of the source become errors. -/
def change_league_dict_orientation (league_dict : List (String × CatDict)) :
    Except LeaguesErr (List (String × LeaguesVal)) :=
  match
    mapLE
      (fun p =>
        match dlookup p.2 "league_id" with
        | none => .error (LeaguesErr.keyError "league_id")
        | some ids =>
          match
            mapLE
              (fun i =>
                mapLE
                  (fun q =>
                    match q.2[i]? with
                    | some c => .ok (q.1, c)
                    | none => .error LeaguesErr.indexError)
                  p.2)
              (List.range ids.length)
          with
          | .error e => .error e
          | .ok rows => .ok (LeagueEntry.mk p.1 rows))
      league_dict
  with
  | .error e => .error e
  | .ok entries => .ok [("data", LeaguesVal.vlist entries)]

/-- `clean_leagues_data`: clean each non-`None` category (dtype conversion
then key reordering), collect them in insertion order, then reorient the
whole dict — the reoriented dict has the single key `data`. -/
def clean_leagues_data (leagues_data_dict : List (String × Option CatDict)) :
    Except LeaguesErr (List (String × LeaguesVal)) :=
  match
    mapLE
      (fun p =>
        match p.2 with
        | some sub =>
          match convert_leagues_dict_dtypes sub with
          | .error e => .error e
          | .ok sub1 => .ok (some (p.1, reorder_leagues_dict_keys sub1))
        | none => .ok none)
      leagues_data_dict
  with
  | .error e => .error e
  | .ok cleaned => change_league_dict_orientation (cleaned.filterMap id)

/-- `scrape_clean_data` of FbrefLeaguesScraper, from the raw scraped dict on:
clean, then raise `ValueError` when every value of the cleaned dict is
`None`, else return the cleaned dict. -/
def scrape_clean_data_leagues (leagues_data_dict : List (String × Option CatDict)) :
    Except LeaguesErr (List (String × LeaguesVal)) :=
  match clean_leagues_data leagues_data_dict with
  | .error e => .error e
  | .ok clean =>
    if clean.all (fun p => p.2 = LeaguesVal.vnone) then
      .error LeaguesErr.valueError
    else .ok clean

/-! ### fbref_league_standings_scraper.py: clean_top_scorer -/

/-- `clean_top_scorer` on one standings row record: the raw scorer cell is
wrapped in a singleton list, split on dashes (the last piece is the goal
count, the rest joined by spaces is the scorer part), the scorer part split
on commas (a multi-valued part becomes a list), and the singleton
goals-scored list is unwrapped back to a number.  `none` models the
exceptions of the source (missing key, non-string cell, non-numeric count). -/
def clean_top_scorer (league_standings_data_dict : List (String × PyVal)) :
    Option (List (String × PyVal)) :=
  match dlookup league_standings_data_dict "top_team_scorer" with
  | none => none
  | some raw =>
    match raw with
    | PyVal.str s =>
      let rest := league_standings_data_dict.filter (fun p => p.1 ≠ "top_team_scorer")
      let p_n := pySplitChar '-' s
      let joined := String.intercalate " " p_n.dropLast
      let parts := pySplitChar ',' joined
      let player : PyVal :=
        if parts.length > 1 then PyVal.list (parts.map PyVal.str)
        else PyVal.str joined
      match pyInt? ((p_n.getLast?).getD "") with
      | none => none
      | some goals =>
        some (rest ++
          [("top_team_scorer",
            PyVal.dict [("player", PyVal.list [player]), ("goals_scored", PyVal.int goals)])])
    | _ => none

/-! ### Auxiliary definitions used by the theorems -/

/-- Reference recursion for header de-duplication: the suffix of an
occurrence is the number of earlier occurrences of the same name. -/
def dedupRef (seen : List String) : List String → List String
  | [] => []
  | h :: t =>
    (if seen.count h = 0 then h else h ++ toString (seen.count h)) :: dedupRef (seen ++ [h]) t

/-- The `header_count` dict holds exactly the positive occurrence counts of
the processed prefix. -/
def countInv (processed : List String) (count : List (String × Nat)) : Prop :=
  ∀ s : String, dlookup count s = if processed.count s = 0 then none else some (processed.count s)

/-- Does the leagues pipeline outcome consist of the domain `ValueError`? -/
def isValueErr (r : Except LeaguesErr (List (String × LeaguesVal))) : Bool :=
  match r with
  | .error .valueError => true
  | _ => false

/-- Is an `Except` outcome a success? -/
def isOkE {α : Type u} (r : Except String α) : Bool :=
  match r with
  | .ok _ => true
  | .error _ => false

/-- The value a convertible int cell is mapped to: `None`/`''` become null,
a numeric string becomes its integer. -/
def intCellVal (c : StrCell) : Option Int :=
  c.bind (fun s => if s = "" then none else pyInt? s)

/-- The value a convertible float cell is mapped to. -/
def floatCellVal (c : StrCell) : Option PyFloat :=
  c.bind (fun s => if s = "" then none else pyFloat? s)

/-- An int-designated cell that does not raise: null, empty, or numeric. -/
def cellIntOk (c : StrCell) : Prop :=
  match c with
  | none => True
  | some s => s = "" ∨ (pyInt? s).isSome = true

/-- A float-designated cell that does not raise. -/
def cellFloatOk (c : StrCell) : Prop :=
  match c with
  | none => True
  | some s => s = "" ∨ (pyFloat? s).isSome = true

/-- All cells of a column are convertible under the column's designation
(int designation takes precedence over float, as in the source's
`if`/`elif`). -/
def colConvOk (int_keys float_keys : List String) (k : String) (col : List StrCell) : Prop :=
  if k ∈ int_keys then ∀ c ∈ col, cellIntOk c
  else if k ∈ float_keys then ∀ c ∈ col, cellFloatOk c
  else True

/-- The value a converted dict entry must take when conversion succeeds. -/
def convTarget (int_keys float_keys : List String) (p : String × List StrCell) :
    String × ConvCol :=
  (p.1,
   if p.1 ∈ int_keys then ConvCol.ints (p.2.map intCellVal)
   else if p.1 ∈ float_keys then ConvCol.floats (p.2.map floatCellVal)
   else ConvCol.strs p.2)

/-- All columns named `f` across the categories, in processing order (the
order in which the reassembly loop encounters them). -/
def metaOccs {α : Type u} (cats : List (String × List (String × List α)))
    (f : String) : List (List α) :=
  ((cats.flatMap (fun c => c.2)).filter (fun q => q.1 = f)).map Prod.snd

/-- One step of the meta-data accumulation inside the reassembly field loop. -/
def metaStep {α : Type u} (ml : List String) (i : Nat)
    (m : List (String × Option α)) (q : String × List α) : List (String × Option α) :=
  if q.1 ∈ ml then dictInsert m q.1 q.2[i]? else m

/-- Concrete pattern for the C1 counterexample: matches the two player urls. -/
def c1Pattern : RegexFn := fun href =>
  if href = "players/abc/" then ["abc"]
  else if href = "players/def/" then ["def"]
  else []

/-- Concrete three-row table for the C1 counterexample: only the first and
third rows contain a matching href. -/
def c1Table : HTable :=
  HTable.mk none
    [HRow.mk [] ["r1"] ["players/abc/"],
     HRow.mk [] ["r2"] ["nothing"],
     HRow.mk [] ["r3"] ["players/def/"]]

/-- Concrete pattern for the C1 witness. -/
def c1StatPattern : RegexFn := fun href => if href = "m/x/" then ["x"] else []

/-- Concrete stat table for the C1 witness: the second data row has a cell
count different from the header and is removed by the stat row parser. -/
def c1StatTable : HTable :=
  HTable.mk none
    [HRow.mk [] ["h1"] [],
     HRow.mk [] ["d1"] ["m/x/"],
     HRow.mk [] ["d1", "extra"] ["m/y/"]]

/-- Concrete stat table for the C4 witness: the one-cell data row is dropped. -/
def c4StatTable : HTable :=
  HTable.mk none
    [HRow.mk [] ["h1", "h2"] [],
     HRow.mk [] ["1", "2"] [],
     HRow.mk [] ["3"] []]

/-- Meta-data field list for the C2 counterexample. -/
def c2Meta : List String := ["date"]

/-- Cleaned two-category stats dict for the C2 counterexample: both
categories carry the meta field `date` and the stat field `x`; the
`schedule` category comes first in iteration order. -/
def c2Dict : List (String × List (String × List String)) :=
  [("schedule", [("match_id", ["m1", "m2"]), ("date", ["dA1", "dA2"]), ("x", ["x1"])]),
   ("shooting", [("date", ["dB1"]), ("x", ["xB1", "xB2"])])]

/-- Concrete table for the C8 witness: two trailing totals rows. -/
def c8Table : HTable :=
  HTable.mk none
    [HRow.mk [] ["h1", "h2"] [],
     HRow.mk [] ["a", "b"] [],
     HRow.mk [] ["Total", "9"] [],
     HRow.mk [] ["Total2", "8"] []]

/-- A table yields the match value `v`: some pattern of the list produces the
nonempty `findall` result `v` on the table's (code-transformed) name. -/
def gtfcYields (patterns : List RegexFn) (t : HTable) (v : List String) : Prop :=
  v ≠ [] ∧ ∃ p ∈ patterns, p (tableNameD t) = v

/-- Invariant of the caption-matching loop over the processed prefix `done`
of the table list: the recorded match values are distinct, every recorded
pair sits at the first index of `done` that yields its value, and every
value yielded by a processed table has been recorded. -/
def gtfcInv (patterns : List RegexFn) (done : List HTable)
    (acc : List (HTable × List String)) : Prop :=
  ((acc.map Prod.snd).Nodup) ∧
  (∀ pr ∈ acc,
    ∃ i : Nat, done[i]? = some pr.1 ∧ gtfcYields patterns pr.1 pr.2 ∧
      ∀ j < i, ∀ t' : HTable, done[j]? = some t' → ¬ gtfcYields patterns t' pr.2) ∧
  (∀ t ∈ done, ∀ v : List String, gtfcYields patterns t v → v ∈ acc.map Prod.snd)

/-- The caption transformation as the specification words it: the caption is
stripped, a literal `"Table"` SUFFIX (only) is removed, and the result is
stripped again.  Written from the specification, to be compared with the
source's `get_table_name`, which removes every occurrence of `"Table"`. -/
def tableNameSuffixSpec (table : HTable) : String :=
  match table.caption with
  | none => ""
  | some c =>
    let t := pyTrimL c.data
    if startsWithL "elbaT".data t.reverse then
      (pyTrimL (t.take (t.length - 5))).asString
    else
      t.asString

/-- Concrete table for the C7 counterexample: the word `Table` occurs both
inside and at the end of the caption. -/
def c7BadTable : HTable := HTable.mk (some "Table A Table") []

/-- Concrete pattern for the C7 counterexample: matches exactly the
suffix-stripped caption of `c7BadTable`. -/
def c7Pat : RegexFn := fun s => if s = "Table A" then ["Table A"] else []

/-- Concrete tables for the C7 witness: two tables with the same caption up
to the trailing `Table`, so they yield the same match value. -/
def c7T1 : HTable := HTable.mk (some "Squad Standard Stats Table") []

/-- Second C7 witness table (near-duplicate caption). -/
def c7T2 : HTable := HTable.mk (some "Squad Standard Stats") []

/-- Concrete pattern for the C7 witness. -/
def c7WPat : RegexFn := fun s =>
  if s = "Squad Standard Stats" then ["Standard"] else []

/-! ### Lemmas about the dict primitives -/

theorem dlookup_nil {α : Type u} (k : String) : dlookup ([] : List (String × α)) k = none := rfl

theorem dlookup_cons {α : Type u} (q : String × α) (d : List (String × α)) (k : String) :
    dlookup (q :: d) k = if q.1 = k then some q.2 else dlookup d k := by
  by_cases h : q.1 = k <;> simp [dlookup, List.find?, h]

theorem dlookup_map_overwrite {α : Type u} (d : List (String × α)) (k k' : String) (v : α)
    (hne : k' ≠ k) :
    dlookup (d.map (fun p => if p.1 = k then (k, v) else p)) k' = dlookup d k' := by
  induction d with
  | nil => rfl
  | cons q t ih =>
    by_cases hq : q.1 = k
    · simp only [List.map_cons, hq, if_pos rfl]
      rw [dlookup_cons, dlookup_cons]
      simp only [hq]
      rw [if_neg (fun h => hne h.symm), if_neg (fun h => hne h.symm)]
      exact ih
    · simp only [List.map_cons, if_neg hq]
      rw [dlookup_cons, dlookup_cons]
      by_cases hq' : q.1 = k'
      · simp [hq']
      · rw [if_neg hq', if_neg hq']
        exact ih

theorem dlookup_map_overwrite_self {α : Type u} (d : List (String × α)) (k : String) (v : α)
    (hmem : d.any (fun p => p.1 = k) = true) :
    dlookup (d.map (fun p => if p.1 = k then (k, v) else p)) k = some v := by
  induction d with
  | nil => simp at hmem
  | cons q t ih =>
    by_cases hq : q.1 = k
    · simp only [List.map_cons, hq, if_pos rfl]
      rw [dlookup_cons]
      simp
    · simp only [List.any_cons, Bool.or_eq_true, decide_eq_true_eq] at hmem
      rcases hmem with h1 | h2
      · exact absurd h1 hq
      · simp only [List.map_cons, if_neg hq]
        rw [dlookup_cons, if_neg hq]
        exact ih h2

theorem dlookup_append_single {α : Type u} (d : List (String × α)) (k k' : String) (v : α) :
    dlookup (d ++ [(k, v)]) k' =
      match dlookup d k' with
      | some w => some w
      | none => if k = k' then some v else none := by
  induction d with
  | nil =>
    simp only [List.nil_append]
    rw [dlookup_cons]
    by_cases h : k = k' <;> simp [h, dlookup_nil]
  | cons q t ih =>
    simp only [List.cons_append]
    rw [dlookup_cons, dlookup_cons]
    by_cases hq : q.1 = k' <;> simp [hq, ih]

theorem dlookup_none_of_not_any {α : Type u} (d : List (String × α)) (k : String)
    (h : d.any (fun p => p.1 = k) = false) : dlookup d k = none := by
  induction d with
  | nil => rfl
  | cons q t ih =>
    simp only [List.any_cons, Bool.or_eq_false_iff, decide_eq_false_iff_not] at h
    rw [dlookup_cons, if_neg h.1]
    exact ih h.2

/-- The fundamental lookup/insert law of the Python-dict model. -/
theorem dlookup_dictInsert {α : Type u} (d : List (String × α)) (k k' : String) (v : α) :
    dlookup (dictInsert d k v) k' = if k' = k then some v else dlookup d k' := by
  unfold dictInsert
  by_cases hmem : d.any (fun p => p.1 = k) = true
  · rw [if_pos hmem]
    by_cases h : k' = k
    · subst h
      rw [if_pos rfl]
      exact dlookup_map_overwrite_self d k' v hmem
    · rw [if_neg h]
      exact dlookup_map_overwrite d k k' v h
  · rw [if_neg hmem]
    rw [dlookup_append_single]
    have hfalse : d.any (fun p => p.1 = k) = false := by
      cases hb : d.any (fun p => p.1 = k)
      · rfl
      · exact absurd hb hmem
    have hd : dlookup d k = none := dlookup_none_of_not_any d k hfalse
    by_cases h : k' = k
    · subst h
      simp [hd]
    · cases hw : dlookup d k' with
      | none =>
        rw [if_neg h]
        exact if_neg (fun hh : k = k' => h hh.symm)
      | some w =>
        rw [if_neg h]

/-! ### Header de-duplication (Claim C9) -/

theorem add_suffix_aux_eq_dedupRef (headers : List String) :
    ∀ (processed : List String) (count : List (String × Nat)),
      countInv processed count → add_suffix_aux count headers = dedupRef processed headers := by
  induction headers with
  | nil => intro _ _ _; rfl
  | cons h t ih =>
    intro processed count hinv
    have hcount := hinv h
    by_cases hz : processed.count h = 0
    · rw [if_pos hz] at hcount
      simp only [add_suffix_aux, hcount, dedupRef, if_pos hz]
      refine congrArg _ (ih (processed ++ [h]) _ ?_)
      intro s
      rw [dlookup_dictInsert]
      by_cases hs : s = h
      · subst hs
        simp [List.count_append, hz]
      · have hcnt : (processed ++ [h]).count s = processed.count s := by
          simp [List.count_append, List.count_cons, hs]
        rw [if_neg hs, hcnt, hinv s]
    · rw [if_neg hz] at hcount
      simp only [add_suffix_aux, hcount, dedupRef, if_neg hz]
      refine congrArg _ (ih (processed ++ [h]) _ ?_)
      intro s
      rw [dlookup_dictInsert]
      by_cases hs : s = h
      · subst hs
        simp [List.count_append, hz]
      · have hcnt : (processed ++ [h]).count s = processed.count s := by
          simp [List.count_append, List.count_cons, hs]
        rw [if_neg hs, hcnt, hinv s]

theorem add_suffix_eq_dedupRef (headers : List String) :
    add_suffix_to_repeat_headers headers = dedupRef [] headers := by
  refine add_suffix_aux_eq_dedupRef headers [] [] ?_
  intro s
  simp [dlookup_nil]

theorem dedupRef_getElem (headers : List String) :
    ∀ (seen : List String) (i : Nat) (h : String), headers[i]? = some h →
      (dedupRef seen headers)[i]? =
        some (if (seen ++ headers.take i).count h = 0 then h
              else h ++ toString ((seen ++ headers.take i).count h)) := by
  induction headers with
  | nil => intro seen i h hi; simp at hi
  | cons x t ih =>
    intro seen i h hi
    cases i with
    | zero =>
      simp only [List.getElem?_cons_zero, Option.some_inj] at hi
      subst hi
      simp [dedupRef]
    | succ n =>
      simp only [List.getElem?_cons_succ] at hi
      have := ih (seen ++ [x]) n h hi
      simp only [dedupRef, List.getElem?_cons_succ]
      rw [this]
      simp [List.append_assoc]

/-- Claim C9: header de-duplication keeps the first occurrence of each name
unchanged and suffixes each subsequent repeat with the number of earlier
occurrences (an increasing integer starting at 1); in particular
`["gls","gls","ast"]` becomes exactly `["gls","gls1","ast"]`. -/
theorem claim_C9 :
    (∀ (headers : List String) (i : Nat) (h : String), headers[i]? = some h →
        (add_suffix_to_repeat_headers headers)[i]? =
          some (if (headers.take i).count h = 0 then h
                else h ++ toString ((headers.take i).count h))) ∧
    add_suffix_to_repeat_headers ["gls", "gls", "ast"] = ["gls", "gls1", "ast"] := by
  constructor
  · intro headers i h hi
    rw [add_suffix_eq_dedupRef]
    have hg := dedupRef_getElem headers [] i h hi
    simpa using hg
  · rfl

/-- Witness for C9: the fourth header of `["a","b","a","a"]` is suffixed with
its two earlier occurrences. -/
theorem claim_C9_witness :
    (add_suffix_to_repeat_headers ["a", "b", "a", "a"])[3]? = some "a2" :=
  (claim_C9.1 ["a", "b", "a", "a"] 3 "a" rfl).trans (by decide)

/-! ### Claim C10: the shootout cleaner -/

theorem dlookup_map_val {β : Type u} {γ : Type v} (d : List (String × β)) (g : β → γ)
    (col : String) :
    dlookup (d.map (fun p => (p.1, g p.2))) col = (dlookup d col).map g := by
  induction d with
  | nil => rfl
  | cons q t ih =>
    simp only [List.map_cons]
    rw [dlookup_cons, dlookup_cons]
    by_cases hq : q.1 = col
    · simp [hq]
    · rw [if_neg hq, if_neg hq]
      exact ih

theorem dlookup_map_upd {β : Type u} (d : List (String × β)) (c col : String) (g : β → β) :
    dlookup (d.map (fun p => if p.1 = c then (p.1, g p.2) else p)) col =
      if col = c then (dlookup d c).map g else dlookup d col := by
  induction d with
  | nil => by_cases h : col = c <;> simp [dlookup_nil, h]
  | cons q t ih =>
    by_cases hq : q.1 = c <;> by_cases hcol : col = c <;> by_cases hqcol : q.1 = col <;>
      simp_all [dlookup_cons]

/-- Lookup after one cleaner assignment: the addressed column is mapped
element-wise (on its string cells), every other column is unchanged. -/
theorem dlookup_applyCleaner (d : List (String × List PyVal)) (c col : String)
    (f : String → PyVal) :
    dlookup (applyCleaner d c f) col =
      if col = c then
        (dlookup d c).map (fun l => l.map (fun v =>
          match v with
          | PyVal.str s => f s
          | other => other))
      else dlookup d col := by
  unfold applyCleaner
  by_cases hm : (dlookup d c).isSome
  · rw [if_pos hm]
    exact dlookup_map_upd d c col _
  · rw [if_neg hm]
    by_cases hcol : col = c
    · subst hcol
      cases hl : dlookup d col with
      | none => simp
      | some l => rw [hl] at hm; simp at hm
    · rw [if_neg hcol]

/-- Splitting `takeWhile`/`dropWhile` at a boundary where the predicate
first fails. -/
theorem takeWhile_dropWhile_append (p : Char → Bool) (xs ys : List Char)
    (hxs : ∀ x ∈ xs, p x = true) (hys : ∀ y t, ys = y :: t → p y = false) :
    (xs ++ ys).takeWhile p = xs ∧ (xs ++ ys).dropWhile p = ys := by
  induction xs with
  | nil =>
    cases ys with
    | nil => exact ⟨rfl, rfl⟩
    | cons y t =>
      have hy := hys y t rfl
      simp [List.takeWhile, List.dropWhile, hy]
  | cons x t ih =>
    have hx : p x = true := hxs x (by simp)
    have iht := ih (fun z hz => hxs z (by simp [hz]))
    simp [List.takeWhile, List.dropWhile, hx, iht.1, iht.2]

/-- Counterexample for claim C10: `"a1 (2)"` is not itself of the form
`X (Y)` (it has a non-digit prefix), yet the cleaner rewrites it to `"1"`
instead of returning it unchanged. -/
theorem claim_C10_counterexample :
    clean_gf_ga "a1 (2)" = "1" ∧ clean_gf_ga "a1 (2)" ≠ "a1 (2)" := by
  constructor
  · rfl
  · decide

/-- Claim C10 (amended): a goals value that is exactly a digit run, optional
whitespace and a parenthesized digit run is replaced by the leading digit
run; a value containing no such substring anywhere is returned unchanged,
and when such a substring occurs the first match decides the result; and the
per-category cleaner applies exactly this transformation element-wise to the
`gf` and `ga` columns. -/
theorem claim_C10 :
    (∀ d1 sp d2 : List Char, d1 ≠ [] → d2 ≠ [] →
      (∀ c ∈ d1, c.isDigit = true) → (∀ c ∈ d2, c.isDigit = true) →
      (∀ c ∈ sp, c.isWhitespace = true ∧ c.isDigit = false) →
      clean_gf_ga (d1 ++ (sp ++ ('(' :: (d2 ++ [')'])))).asString = d1.asString) ∧
    (∀ s : String, findGfGa s.data = none → clean_gf_ga s = s) ∧
    (∀ (s : String) (x y : String), findGfGa s.data = some (x, y) → clean_gf_ga s = x) ∧
    (∀ (d : List (String × List String)) (col : String), col = "gf" ∨ col = "ga" →
      dlookup (clean_stat_dict_columns d) col =
        (dlookup d col).map (fun l => l.map (fun s => PyVal.str (clean_gf_ga s)))) := by
  refine ⟨?_, ?_, ?_, ?_⟩
  · intro d1 sp d2 hd1 hd2 hdig1 hdig2 hsp
    have h1 := takeWhile_dropWhile_append Char.isDigit d1 (sp ++ ('(' :: (d2 ++ [')'])))
      hdig1
      (by
        intro y t2 hyt
        cases sp with
        | nil =>
          rw [List.nil_append] at hyt
          injection hyt with hy ht
          subst hy
          rfl
        | cons z zs =>
          rw [List.cons_append] at hyt
          injection hyt with hy ht
          subst hy
          exact (hsp z (List.mem_cons_self z zs)).2)
    have h2 := takeWhile_dropWhile_append Char.isWhitespace sp ('(' :: (d2 ++ [')']))
      (fun z hz => (hsp z hz).1)
      (by intro y t2 hyt; injection hyt with hy ht; subst hy; rfl)
    have h3 := takeWhile_dropWhile_append Char.isDigit d2 [')'] hdig2
      (by intro y t2 hyt; injection hyt with hy ht; subst hy; rfl)
    have hmatch : matchGfGaAt (d1 ++ (sp ++ ('(' :: (d2 ++ [')'])))) =
        some (d1.asString, d2.asString) := by
      simp only [matchGfGaAt, h1.1, h1.2, h2.2, h3.1, h3.2]
      rw [if_neg hd1, if_neg hd2]
    cases d1 with
    | nil => exact absurd rfl hd1
    | cons c cs =>
      unfold clean_gf_ga
      have hfind : findGfGa (((c :: cs) ++ (sp ++ ('(' :: (d2 ++ [')'])))).asString).data =
          some ((c :: cs).asString, d2.asString) := by
        show (match matchGfGaAt ((c :: cs) ++ (sp ++ ('(' :: (d2 ++ [')'])))) with
              | some r => some r
              | none => findGfGa (cs ++ (sp ++ ('(' :: (d2 ++ [')']))))) = _
        rw [hmatch]
      rw [hfind]
  · intro s hnone
    unfold clean_gf_ga
    rw [hnone]
  · intro s x y hsome
    unfold clean_gf_ga
    rw [hsome]
  · intro d col hcol
    unfold clean_stat_dict_columns cleaningMap
    simp only [List.foldl]
    rcases hcol with h | h <;> subst h <;>
      simp [dlookup_applyCleaner, dlookup_map_val, Option.map_map, Function.comp_def]

/-- Witness for C10: the exact-form value `"12 (3)"` is rewritten to `"12"`. -/
theorem claim_C10_witness :
    clean_gf_ga ((['1', '2'] ++ ([' '] ++ ('(' :: (['3'] ++ [')'])))).asString) =
      (['1', '2'] : List Char).asString :=
  claim_C10.1 ['1', '2'] [' '] ['3'] (by decide) (by decide) (by decide) (by decide)
    (by decide)

/-! ### Claim C5: the top-scorer cleaner -/

/-- Counterexample for claim C5: for the raw cell `"Messi-20"` the cleaner
stores the player as the one-element list `["Messi"]`, not as the bare
string `"Messi"` that the claim asserts. -/
theorem claim_C5_counterexample :
    clean_top_scorer [("top_team_scorer", PyVal.str "Messi-20")] =
      some [("top_team_scorer",
        PyVal.dict [("player", PyVal.list [PyVal.str "Messi"]),
                    ("goals_scored", PyVal.int 20)])] ∧
    PyVal.list [PyVal.str "Messi"] ≠ PyVal.str "Messi" := by
  refine ⟨rfl, ?_⟩
  intro h
  exact PyVal.noConfusion h

/-- Claim C5 (amended): for the raw cell `"Messi-20"` the cleaner produces
`player = ["Messi"]` (a one-element list; only `goals_scored` is unwrapped
to the bare integer 20), and for `"Messi,Ronaldo-10"` it produces
`player = [["Messi","Ronaldo"]]` (the comma-split list nested inside the
one-element list) with `goals_scored = 10`. -/
theorem claim_C5 :
    clean_top_scorer [("top_team_scorer", PyVal.str "Messi-20")] =
      some [("top_team_scorer",
        PyVal.dict [("player", PyVal.list [PyVal.str "Messi"]),
                    ("goals_scored", PyVal.int 20)])] ∧
    clean_top_scorer [("top_team_scorer", PyVal.str "Messi,Ronaldo-10")] =
      some [("top_team_scorer",
        PyVal.dict [("player", PyVal.list [PyVal.list [PyVal.str "Messi", PyVal.str "Ronaldo"]]),
                    ("goals_scored", PyVal.int 10)])] :=
  ⟨rfl, rfl⟩

/-! ### Claim C3: the leagues-by-country domain error -/

theorem mapLE_error_kind {α : Type u} {β : Type v} (f : α → Except LeaguesErr β)
    (P : LeaguesErr → Prop) (hf : ∀ a e, f a = .error e → P e) :
    ∀ (l : List α) (e : LeaguesErr), mapLE f l = .error e → P e := by
  intro l
  induction l with
  | nil => intro e he; simp [mapLE] at he
  | cons a t ih =>
    intro e he
    unfold mapLE at he
    cases ha : f a with
    | error e1 =>
      rw [ha] at he
      simp only [Except.error.injEq] at he
      subst he
      exact hf a _ ha
    | ok b =>
      rw [ha] at he
      cases ht : mapLE f t with
      | error e2 =>
        rw [ht] at he
        simp only [Except.error.injEq] at he
        subst he
        exact ih _ ht
      | ok bs => rw [ht] at he; cases he

theorem convert_lcell_int_error (c : LCell) (e : LeaguesErr)
    (h : convert_lcell_int c = .error e) : ∃ m, e = LeaguesErr.coercion m := by
  cases c with
  | null => simp [convert_lcell_int] at h
  | int n => simp [convert_lcell_int] at h
  | str v =>
    simp only [convert_lcell_int] at h
    by_cases hv : v = ""
    · rw [if_pos hv] at h; cases h
    · rw [if_neg hv] at h
      cases hp : pyInt? v with
      | some n => rw [hp] at h; cases h
      | none =>
        rw [hp] at h
        simp only [Except.error.injEq] at h
        subst h
        exact ⟨_, rfl⟩

theorem convert_leagues_dict_dtypes_error (sub : CatDict) (e : LeaguesErr)
    (h : convert_leagues_dict_dtypes sub = .error e) : ∃ m, e = LeaguesErr.coercion m := by
  refine mapLE_error_kind _ (fun e => ∃ m, e = LeaguesErr.coercion m) ?_ sub e h
  intro p e1 hp
  by_cases hk : p.1 = "league_id"
  · rw [if_pos hk] at hp
    cases hm : mapLE convert_lcell_int p.2 with
    | error e2 =>
      rw [hm] at hp
      simp only [Except.error.injEq] at hp
      subst hp
      exact mapLE_error_kind _ _ convert_lcell_int_error p.2 _ hm
    | ok l => rw [hm] at hp; cases hp
  · rw [if_neg hk] at hp; cases hp

theorem change_league_dict_orientation_error (d : List (String × CatDict))
    (e : LeaguesErr) (h : change_league_dict_orientation d = .error e) :
    e ≠ LeaguesErr.valueError := by
  unfold change_league_dict_orientation at h
  cases hm :
      mapLE
        (fun p =>
          match dlookup p.2 "league_id" with
          | none => .error (LeaguesErr.keyError "league_id")
          | some ids =>
            match
              mapLE
                (fun i =>
                  mapLE
                    (fun q =>
                      match q.2[i]? with
                      | some c => .ok (q.1, c)
                      | none => .error LeaguesErr.indexError)
                    p.2)
                (List.range ids.length)
            with
            | .error e => .error e
            | .ok rows => .ok (LeagueEntry.mk p.1 rows))
        d with
  | error e1 =>
    rw [hm] at h
    simp only [Except.error.injEq] at h
    subst h
    refine mapLE_error_kind _ (fun e => e ≠ LeaguesErr.valueError) ?_ d _ hm
    intro p e2 hp
    cases hl : dlookup p.2 "league_id" with
    | none =>
      rw [hl] at hp
      cases hp
      intro hc; cases hc
    | some ids =>
      simp only [hl] at hp
      cases hr :
          mapLE
            (fun i =>
              mapLE
                (fun q =>
                  match q.2[i]? with
                  | some c => .ok (q.1, c)
                  | none => .error LeaguesErr.indexError)
                p.2)
            (List.range ids.length) with
      | error e3 =>
        simp only [hr, Except.error.injEq] at hp
        subst hp
        refine mapLE_error_kind _ (fun e => e ≠ LeaguesErr.valueError) ?_ _ _ hr
        intro i e4 hi
        refine mapLE_error_kind _ (fun e => e ≠ LeaguesErr.valueError) ?_ _ e4 hi
        intro q e5 hq
        cases hc : q.2[i]? with
        | some c => rw [hc] at hq; cases hq
        | none =>
          rw [hc] at hq
          cases hq
          intro hcon; cases hcon
      | ok rows =>
        simp only [hr] at hp
        cases hp
  | ok entries => rw [hm] at h; cases h

theorem change_league_dict_orientation_ok (d : List (String × CatDict))
    (out : List (String × LeaguesVal)) (h : change_league_dict_orientation d = .ok out) :
    ∃ es, out = [("data", LeaguesVal.vlist es)] := by
  unfold change_league_dict_orientation at h
  cases hm :
      mapLE
        (fun p =>
          match dlookup p.2 "league_id" with
          | none => .error (LeaguesErr.keyError "league_id")
          | some ids =>
            match
              mapLE
                (fun i =>
                  mapLE
                    (fun q =>
                      match q.2[i]? with
                      | some c => .ok (q.1, c)
                      | none => .error LeaguesErr.indexError)
                    p.2)
                (List.range ids.length)
            with
            | .error e => .error e
            | .ok rows => .ok (LeagueEntry.mk p.1 rows))
        d with
  | error e1 => rw [hm] at h; cases h
  | ok entries =>
    rw [hm] at h
    cases h
    exact ⟨entries, rfl⟩

theorem clean_leagues_data_error (raw : List (String × Option CatDict)) (e : LeaguesErr)
    (h : clean_leagues_data raw = .error e) : e ≠ LeaguesErr.valueError := by
  unfold clean_leagues_data at h
  cases hm :
      mapLE
        (fun p =>
          match p.2 with
          | some sub =>
            match convert_leagues_dict_dtypes sub with
            | .error e => .error e
            | .ok sub1 => .ok (some (p.1, reorder_leagues_dict_keys sub1))
          | none => .ok none)
        raw with
  | error e1 =>
    rw [hm] at h
    simp only [Except.error.injEq] at h
    subst h
    refine mapLE_error_kind _ (fun e => e ≠ LeaguesErr.valueError) ?_ raw _ hm
    intro p e2 hp
    cases hsub : p.2 with
    | none => rw [hsub] at hp; cases hp
    | some sub =>
      simp only [hsub] at hp
      cases hc : convert_leagues_dict_dtypes sub with
      | error e3 =>
        simp only [hc, Except.error.injEq] at hp
        subst hp
        obtain ⟨m, hm2⟩ := convert_leagues_dict_dtypes_error sub _ hc
        subst hm2
        intro hcon; cases hcon
      | ok sub1 =>
        simp only [hc] at hp
        cases hp
  | ok cleaned =>
    rw [hm] at h
    exact change_league_dict_orientation_error _ _ h

theorem clean_leagues_data_ok (raw : List (String × Option CatDict))
    (out : List (String × LeaguesVal)) (h : clean_leagues_data raw = .ok out) :
    ∃ es, out = [("data", LeaguesVal.vlist es)] := by
  unfold clean_leagues_data at h
  cases hm :
      mapLE
        (fun p =>
          match p.2 with
          | some sub =>
            match convert_leagues_dict_dtypes sub with
            | .error e => .error e
            | .ok sub1 => .ok (some (p.1, reorder_leagues_dict_keys sub1))
          | none => .ok none)
        raw with
  | error e1 => rw [hm] at h; cases h
  | ok cleaned =>
    rw [hm] at h
    exact change_league_dict_orientation_ok _ _ h

/-- Claim C3: the leagues-by-country endpoint is claimed to raise a
`ValueError` exactly when every category is empty.  In the code the cleaned
dict is first reoriented into `{'data': [...]}`, whose single value is a
list and never `None`, so the all-null check is always false: the
`ValueError` branch is unreachable, and on the all-empty input the endpoint
returns `{'data': []}` without error. -/
theorem claim_C3 :
    (∀ raw : List (String × Option CatDict),
        isValueErr (scrape_clean_data_leagues raw) = false) ∧
    scrape_clean_data_leagues
        [("domestic_leagues", none), ("domestic_cups", none),
         ("international_competitions", none), ("national_team_competitions", none)] =
      .ok [("data", LeaguesVal.vlist [])] := by
  constructor
  · intro raw
    unfold scrape_clean_data_leagues
    cases hc : clean_leagues_data raw with
    | error e =>
      have hne := clean_leagues_data_error raw e hc
      cases e with
      | valueError => exact absurd rfl hne
      | coercion m => rfl
      | keyError k => rfl
      | indexError => rfl
    | ok clean =>
      obtain ⟨es, rfl⟩ := clean_leagues_data_ok raw clean hc
      simp [isValueErr]
  · rfl

/-! ### Claim C1: url-embedded-id extraction alignment -/

theorem itemsAux_eq_filterMap (patterns : List RegexFn) (rows : List HRow) :
    itemsAux patterns rows = rows.filterMap (rowItem patterns) := by
  induction rows with
  | nil => rfl
  | cons row rest ih =>
    unfold itemsAux
    cases h : rowItem patterns row with
    | some item => rw [List.filterMap_cons, h, ih]
    | none => rw [List.filterMap_cons, h, ih]

theorem filterMap_length_eq_filter_isSome {α : Type u} {β : Type v} (f : α → Option β)
    (l : List α) :
    (l.filterMap f).length = (l.filter (fun a => (f a).isSome)).length := by
  induction l with
  | nil => rfl
  | cons a t ih =>
    rw [List.filterMap_cons, List.filter_cons]
    cases h : f a with
    | some b => simp [h, ih]
    | none => simp [h, ih]

/-- Counterexample for claim C1: a three-row table in which only rows 1 and 3
contain a matching href yields the two-element list `["abc","def"]`, not a
three-element list with a null middle entry — the length is not the row
count. -/
theorem claim_C1_counterexample :
    get_all_items_from_table_urls c1Table [c1Pattern] = ["abc", "def"] ∧
    (parse_table_rows c1Table).length = 3 ∧
    (get_all_items_from_table_urls c1Table [c1Pattern]).length ≠
      (parse_table_rows c1Table).length := by
  refine ⟨rfl, rfl, ?_⟩
  decide

/-- Claim C1 (amended): the url-item extractors return one entry per row
whose hrefs produce a truthy match, in row order, skipping rows without a
match entirely — the result length is the number of matching rows, not the
table's row count. -/
theorem claim_C1 :
    (∀ (table : HTable) (patterns : List RegexFn),
        get_all_items_from_table_urls table patterns =
          (parse_table_rows table).filterMap (rowItem patterns)) ∧
    (∀ (table : HTable) (patterns : List RegexFn),
        (get_all_items_from_table_urls table patterns).length =
          ((parse_table_rows table).filter
            (fun row => (rowItem patterns row).isSome)).length) ∧
    (∀ (stat_table : HTable) (patterns : List RegexFn) (skip_row : Bool)
        (rows : List HRow),
        parse_stat_table_rows stat_table skip_row = some rows →
        get_all_items_from_stat_table_urls stat_table patterns skip_row =
          some (rows.filterMap (rowItem patterns))) := by
  refine ⟨?_, ?_, ?_⟩
  · intro table patterns
    exact itemsAux_eq_filterMap patterns (parse_table_rows table)
  · intro table patterns
    rw [get_all_items_from_table_urls, itemsAux_eq_filterMap]
    exact filterMap_length_eq_filter_isSome _ _
  · intro stat_table patterns skip_row rows h
    unfold get_all_items_from_stat_table_urls
    rw [h]
    show some (itemsAux patterns rows) = some (rows.filterMap (rowItem patterns))
    rw [itemsAux_eq_filterMap]

/-- Witness for C1: on a concrete stat table (whose malformed second data
row is removed by the row parser) the extractor returns exactly the matches
of the surviving rows. -/
theorem claim_C1_witness :
    get_all_items_from_stat_table_urls c1StatTable [c1StatPattern] false =
      some (([HRow.mk [] ["h1"] [], HRow.mk [] ["d1"] ["m/x/"]]).filterMap
        (rowItem [c1StatPattern])) :=
  claim_C1.2.2 c1StatTable [c1StatPattern] false
    [HRow.mk [] ["h1"] [], HRow.mk [] ["d1"] ["m/x/"]] (by rfl)

/-! ### Claim C8: totals detection overrides drop_rows -/

theorem countTotals_cons (row : List String) (rest : List (List String)) :
    countTotals (row :: rest) =
      if pyIn "Total" (firstCell row) = true then countTotals rest + 1 else 0 := rfl

theorem countTotals_append_all (xs ys : List (List String))
    (hxs : ∀ r ∈ xs, pyIn "Total" (firstCell r) = true) :
    countTotals (xs ++ ys) = xs.length + countTotals ys := by
  induction xs with
  | nil => simp [List.nil_append]
  | cons r t ih =>
    rw [List.cons_append, countTotals_cons, hxs r (by simp), if_pos rfl,
      ih (fun z hz => hxs z (by simp [hz]))]
    simp [List.length_cons]
    omega

theorem countTotals_of_head_not (r : List String) (rs : List (List String))
    (h : pyIn "Total" (firstCell r) = false) :
    countTotals (r :: rs) = 0 := by
  rw [countTotals_cons, h]
  simp

/-- `detect_totals_rows` counts exactly the maximal trailing block of rows
whose first cell contains `"Total"`. -/
theorem detect_totals_rows_eq (pre block : List (List String))
    (hpre : pre ≠ [])
    (hblock : ∀ r ∈ block, pyIn "Total" (firstCell r) = true)
    (hmax : ∀ lastRow, pre.getLast? = some lastRow →
      pyIn "Total" (firstCell lastRow) = false) :
    detect_totals_rows (pre ++ block) = block.length := by
  unfold detect_totals_rows
  rw [List.reverse_append]
  cases hpr : pre.reverse with
  | nil => exact absurd (by simpa using hpr) hpre
  | cons r rs =>
    have hlast : pre.getLast? = some r := by
      rw [← List.head?_reverse, hpr]
      rfl
    have h0 : countTotals (r :: rs) = 0 :=
      countTotals_of_head_not r rs (hmax r hlast)
    rw [countTotals_append_all block.reverse (r :: rs)
      (fun z hz => hblock z (List.mem_reverse.mp hz))]
    rw [h0]
    simp

/-- Claim C8: with `exclude_totals=true` the parser drops exactly the
maximal trailing block of rows whose first cell contains `"Total"` — no
other rows — and the passed `drop_rows` value has no effect. -/
theorem claim_C8 (table : HTable) (skip_row : Bool) (k k2 : Nat)
    (pre block : List (List String))
    (hsplit : (if skip_row then (parse_all_row_data (parse_table_rows table)).tail
               else parse_all_row_data (parse_table_rows table)) = pre ++ block)
    (hpre : pre ≠ [])
    (hrows : ∀ r ∈ pre ++ block, r ≠ [])
    (hblock : ∀ r ∈ block, pyIn "Total" (firstCell r) = true)
    (hmax : ∀ lastRow, pre.getLast? = some lastRow →
      pyIn "Total" (firstCell lastRow) = false) :
    parse_table_data table skip_row k true = convert_row_data_to_dict pre ∧
    parse_table_data table skip_row k true = parse_table_data table skip_row k2 true := by
  constructor
  · unfold parse_table_data
    simp only [if_true]
    rw [hsplit, detect_totals_rows_eq pre block hpre hblock hmax]
    cases hb : block with
    | nil =>
      subst hb
      simp
    | cons b bs =>
      have hpos : (b :: bs).length > 0 := by simp
      rw [← hb]
      rw [if_pos (by rw [hb]; exact hpos)]
      rw [List.length_append, Nat.add_sub_cancel, List.take_left]
  · rfl

/-- Witness for C8: on a concrete table with two trailing totals rows and an
arbitrary `drop_rows` of 5, exactly the two totals rows are dropped. -/
theorem claim_C8_witness :
    parse_table_data c8Table false 5 true =
      convert_row_data_to_dict [["h1", "h2"], ["a", "b"]] ∧
    parse_table_data c8Table false 5 true = parse_table_data c8Table false 0 true :=
  claim_C8 c8Table false 5 0 [["h1", "h2"], ["a", "b"]]
    [["Total", "9"], ["Total2", "8"]] (by rfl) (by decide) (by decide) (by decide)
    (by decide)

/-! ### Claim C4: row-length mismatch handling -/

theorem dictInsert_of_not_any {α : Type u} (d : List (String × α)) (k : String) (v : α)
    (h : d.any (fun p => p.1 = k) = false) : dictInsert d k v = d ++ [(k, v)] := by
  unfold dictInsert
  rw [h]
  simp

theorem foldl_dictInsert_eq_append {α : Type u} (ps : List (String × α)) :
    ∀ acc : List (String × α), (ps.map Prod.fst).Nodup →
      (∀ p ∈ ps, acc.any (fun q => q.1 = p.1) = false) →
      ps.foldl (fun d p => dictInsert d p.1 p.2) acc = acc ++ ps := by
  induction ps with
  | nil => intro acc _ _; simp
  | cons p t ih =>
    intro acc hnodup hdisj
    rw [List.foldl_cons, dictInsert_of_not_any acc p.1 p.2 (hdisj p (by simp))]
    have hnodup2 : (t.map Prod.fst).Nodup := by
      rw [List.map_cons] at hnodup
      exact hnodup.of_cons
    have hhead : p.1 ∉ t.map Prod.fst := by
      rw [List.map_cons] at hnodup
      exact (List.nodup_cons.mp hnodup).1
    have hdisj2 : ∀ q ∈ t, (acc ++ [p]).any (fun z => z.1 = q.1) = false := by
      intro q hq
      rw [List.any_append]
      have h1 : acc.any (fun z => z.1 = q.1) = false := hdisj q (by simp [hq])
      have h2 : ([p].any (fun z => z.1 = q.1)) = false := by
        simp only [List.any_cons, List.any_nil, Bool.or_false, decide_eq_false_iff_not]
        intro hcon
        exact hhead (hcon ▸ List.mem_map_of_mem Prod.fst hq)
      rw [h1, h2]
      rfl
    rw [ih (acc ++ [p]) hnodup2 hdisj2]
    simp

theorem zip_map_fst {α : Type u} {β : Type v} :
    ∀ (l1 : List α) (l2 : List β), (l1.zip l2).map Prod.fst = l1.take l2.length := by
  intro l1
  induction l1 with
  | nil => intro l2; simp
  | cons a t ih =>
    intro l2
    cases l2 with
    | nil => simp
    | cons b u => simp [List.zip_cons_cons, ih u]

/-- With de-duplicated headers the fold of dict assignments is just the
association list of the zipped columns. -/
theorem convert_row_data_to_dict_eq_zip (headers : List String) (ds : List (List String))
    (hnodup : (cleanHeaders headers).Nodup) :
    convert_row_data_to_dict (headers :: ds) =
      (cleanHeaders headers).zip (pyTranspose ds) := by
  have hfst : (((cleanHeaders headers).zip (pyTranspose ds)).map Prod.fst).Nodup := by
    rw [zip_map_fst]
    exact hnodup.sublist (List.take_sublist _ _)
  have hred : convert_row_data_to_dict (headers :: ds) =
      ((cleanHeaders headers).zip (pyTranspose ds)).foldl
        (fun d p => dictInsert d p.1 p.2) [] := rfl
  rw [hred,
    foldl_dictInsert_eq_append ((cleanHeaders headers).zip (pyTranspose ds)) []
      hfst (fun p _ => rfl)]
  simp

theorem foldl_min_const (L : Nat) :
    ∀ lst : List Nat, (∀ x ∈ lst, x = L) → lst.foldl min L = L := by
  intro lst
  induction lst with
  | nil => intro _; rfl
  | cons x t ih =>
    intro h
    rw [List.foldl_cons, h x (by simp), min_self]
    exact ih (fun z hz => h z (by simp [hz]))

theorem pyMinLen_const (L : Nat) (ds : List (List String)) (hne : ds ≠ [])
    (hlen : ∀ r ∈ ds, r.length = L) : pyMinLen ds = L := by
  cases ds with
  | nil => exact absurd rfl hne
  | cons r rs =>
    have hred : pyMinLen (r :: rs) = (rs.map List.length).foldl min r.length := rfl
    rw [hred, hlen r (by simp)]
    exact foldl_min_const L (rs.map List.length)
      (by
        intro x hx
        obtain ⟨z, hz, rfl⟩ := List.mem_map.mp hx
        exact hlen z (by simp [hz]))

theorem pyTranspose_const (L : Nat) (ds : List (List String)) (hne : ds ≠ [])
    (hlen : ∀ r ∈ ds, r.length = L) :
    pyTranspose ds = (List.range L).map (fun j => ds.map (fun r => r.getD j "")) := by
  cases ds with
  | nil => exact absurd rfl hne
  | cons r rs =>
    have hred : pyTranspose (r :: rs) =
        (List.range (pyMinLen (r :: rs))).map
          (fun j => (r :: rs).map (fun row => row.getD j "")) := rfl
    rw [hred, pyMinLen_const L (r :: rs) hne hlen]

theorem parse_stat_table_rows_false_eq (t : HTable) (hr : HRow) (rest : List HRow)
    (h : parse_table_rows t = hr :: rest) :
    parse_stat_table_rows t false =
      some (hr :: rest.filter (fun row => row.cells.length = hr.cells.length)) := by
  simp [parse_stat_table_rows, h]

theorem parse_stat_table_rows_true_eq (t : HTable) (r0 hr : HRow) (rest : List HRow)
    (h : parse_table_rows t = r0 :: hr :: rest) :
    parse_stat_table_rows t true =
      some (hr :: rest.filter (fun row => row.cells.length = hr.cells.length)) := by
  simp [parse_stat_table_rows, h]

theorem parse_stat_table_rows_shape (t : HTable) (skip : Bool) (rows : List HRow)
    (h : parse_stat_table_rows t skip = some rows) :
    ∃ (hr : HRow) (rest : List HRow),
      rows = hr :: rest.filter (fun row => row.cells.length = hr.cells.length) := by
  cases skip with
  | false =>
    cases hc : parse_table_rows t with
    | nil =>
      rw [show parse_stat_table_rows t false = none by simp [parse_stat_table_rows, hc]] at h
      cases h
    | cons hr rest =>
      rw [parse_stat_table_rows_false_eq t hr rest hc] at h
      refine ⟨hr, rest, ?_⟩
      injection h with h2
      exact h2.symm
  | true =>
    cases hc : parse_table_rows t with
    | nil =>
      rw [show parse_stat_table_rows t true = none by simp [parse_stat_table_rows, hc]] at h
      cases h
    | cons r0 rest1 =>
      cases rest1 with
      | nil =>
        rw [show parse_stat_table_rows t true = none by simp [parse_stat_table_rows, hc]] at h
        cases h
      | cons hr rest =>
        rw [parse_stat_table_rows_true_eq t r0 hr rest hc] at h
        refine ⟨hr, rest, ?_⟩
        injection h with h2
        exact h2.symm

theorem parse_stat_table_data_of_rows (t : HTable) (skip : Bool) (hr : HRow)
    (rest : List HRow) (h : parse_stat_table_rows t skip = some (hr :: rest))
    (hlen : ∀ row ∈ rest, row.cells.length = hr.cells.length) :
    parse_stat_table_data t skip 0 false =
      some (convert_row_data_to_dict (hr.cells :: rest.map parse_row_data)) := by
  unfold parse_stat_table_data
  rw [h]
  show some (convert_row_data_to_dict
      ((parse_all_row_data (hr :: rest)).filter
        (fun r => r.length = ((parse_all_row_data (hr :: rest)).headD []).length))) = _
  have hall : parse_all_row_data (hr :: rest) = hr.cells :: rest.map parse_row_data := rfl
  rw [hall]
  have hfilter :
      (hr.cells :: rest.map parse_row_data).filter
        (fun r => r.length = ((hr.cells :: rest.map parse_row_data).headD []).length) =
      hr.cells :: rest.map parse_row_data := by
    apply List.filter_eq_self.mpr
    intro a ha
    simp only [List.headD_cons]
    rcases List.mem_cons.mp ha with h1 | h2
    · subst h1; simp
    · obtain ⟨row, hrow, rfl⟩ := List.mem_map.mp h2
      simp [parse_row_data, hlen row hrow]
  rw [hfilter]

/-- Counterexample for claim C4: in `convert_row_data_to_dict` (the basic
Row/Table Parser) the short row `["3"]` is not dropped — instead every
column is truncated to the shortest row, losing column `b` and keeping the
short row's cell. -/
theorem claim_C4_counterexample :
    convert_row_data_to_dict [["a", "b"], ["1", "2"], ["3"]] = [("a", ["1", "3"])] ∧
    convert_row_data_to_dict [["a", "b"], ["1", "2"], ["3"]] ≠
      [("a", ["1"]), ("b", ["2"])] := by
  refine ⟨rfl, ?_⟩
  decide

/-- Claim C4 (amended): the stricter stat-table parser
(`parse_stat_table_rows` / `parse_stat_table_data`) drops every data row
whose cell count differs from the header row's cell count and parses the
surviving rows, in original order, into the column-oriented mapping; the
basic parser (`convert_row_data_to_dict`) does not drop mismatched rows but
truncates all columns to the shortest row length. -/
theorem claim_C4 :
    (∀ (t : HTable) (hr : HRow) (rest : List HRow),
        parse_table_rows t = hr :: rest →
        parse_stat_table_rows t false =
          some (hr :: rest.filter (fun row => row.cells.length = hr.cells.length))) ∧
    (∀ (t : HTable) (r0 hr : HRow) (rest : List HRow),
        parse_table_rows t = r0 :: hr :: rest →
        parse_stat_table_rows t true =
          some (hr :: rest.filter (fun row => row.cells.length = hr.cells.length))) ∧
    (∀ (t : HTable) (skip : Bool) (hr : HRow) (rest : List HRow),
        parse_stat_table_rows t skip = some (hr :: rest) →
        parse_stat_table_data t skip 0 false =
          some (convert_row_data_to_dict (hr.cells :: rest.map parse_row_data)) ∧
        ∀ row ∈ rest, row.cells.length = hr.cells.length) ∧
    (∀ (headers : List String) (ds : List (List String)),
        (cleanHeaders headers).Nodup →
        convert_row_data_to_dict (headers :: ds) =
          (cleanHeaders headers).zip (pyTranspose ds)) ∧
    (∀ (headers : List String) (ds : List (List String)),
        ds ≠ [] → (∀ r ∈ ds, r.length = headers.length) →
        (cleanHeaders headers).Nodup →
        convert_row_data_to_dict (headers :: ds) =
          (cleanHeaders headers).zip
            ((List.range headers.length).map (fun j => ds.map (fun r => r.getD j "")))) := by
  refine ⟨parse_stat_table_rows_false_eq, parse_stat_table_rows_true_eq, ?_, ?_, ?_⟩
  · intro t skip hr rest h
    obtain ⟨hr2, rest2, heq⟩ := parse_stat_table_rows_shape t skip (hr :: rest) h
    have hhr : hr = hr2 := by
      injection heq
    have hrest : rest = rest2.filter (fun row => row.cells.length = hr2.cells.length) := by
      injection heq
    have hlen : ∀ row ∈ rest, row.cells.length = hr.cells.length := by
      intro row hrow
      rw [hrest] at hrow
      have := List.of_mem_filter hrow
      rw [hhr]
      exact of_decide_eq_true this
    exact ⟨parse_stat_table_data_of_rows t skip hr rest h hlen, hlen⟩
  · exact convert_row_data_to_dict_eq_zip
  · intro headers ds hne hlen hnodup
    rw [convert_row_data_to_dict_eq_zip headers ds hnodup,
      pyTranspose_const headers.length ds hne hlen]

/-- Witness for C4: on a concrete stat table the one-cell data row is
dropped and the surviving row parses. -/
theorem claim_C4_witness :
    parse_stat_table_data c4StatTable false 0 false =
      some (convert_row_data_to_dict [["h1", "h2"], ["1", "2"]]) :=
  (claim_C4.2.2.1 c4StatTable false (HRow.mk [] ["h1", "h2"] [])
    [HRow.mk [] ["1", "2"] []] (by rfl)).1

/-! ### Claim C6: type coercion -/

theorem mapE_map {α : Type u} {β : Type v} (f : α → Except String β) (g : α → β) :
    ∀ l : List α, (∀ a ∈ l, f a = .ok (g a)) → mapE f l = .ok (l.map g) := by
  intro l
  induction l with
  | nil => intro _; rfl
  | cons a t ih =>
    intro h
    unfold mapE
    rw [h a (by simp), ih (fun z hz => h z (by simp [hz]))]
    rfl

theorem mapE_ok_mem {α : Type u} {β : Type v} (f : α → Except String β) :
    ∀ (l : List α) (bs : List β), mapE f l = .ok bs → ∀ a ∈ l, ∃ b, f a = .ok b := by
  intro l
  induction l with
  | nil => intro bs _ a ha; simp at ha
  | cons x t ih =>
    intro bs h a ha
    unfold mapE at h
    cases hx : f x with
    | error e => rw [hx] at h; cases h
    | ok b =>
      rw [hx] at h
      cases ht : mapE f t with
      | error e => rw [ht] at h; cases h
      | ok cs =>
        rcases List.mem_cons.mp ha with rfl | ha2
        · exact ⟨b, hx⟩
        · exact ih cs ht a ha2

theorem mapE_error_of_mem {α : Type u} {β : Type v} (f : α → Except String β) :
    ∀ (l : List α) (a : α), a ∈ l → (∀ b, f a ≠ .ok b) →
      ∃ e, mapE f l = .error e := by
  intro l
  induction l with
  | nil => intro a ha; simp at ha
  | cons x t ih =>
    intro a ha hbad
    unfold mapE
    cases hx : f x with
    | error e => exact ⟨e, rfl⟩
    | ok b =>
      rcases List.mem_cons.mp ha with rfl | ha2
      · exact absurd hx (hbad b)
      · obtain ⟨e, he⟩ := ih a ha2 hbad
        rw [he]
        exact ⟨e, rfl⟩

theorem cellInt_ok_eq (c : StrCell) (h : cellIntOk c) : cellInt c = .ok (intCellVal c) := by
  cases c with
  | none => rfl
  | some s =>
    unfold cellIntOk at h
    unfold cellInt intCellVal
    by_cases hs : s = ""
    · simp [hs]
    · rcases h with h1 | h2
      · exact absurd h1 hs
      · obtain ⟨n, hn⟩ := Option.isSome_iff_exists.mp h2
        simp [hs, hn]

theorem cellInt_err (c : StrCell) (h : ¬ cellIntOk c) : ∀ b, cellInt c ≠ .ok b := by
  cases c with
  | none => exact absurd trivial h
  | some s =>
    unfold cellIntOk at h
    have hs : ¬ s = "" := fun hcon => h (Or.inl hcon)
    have hnum : ¬ (pyInt? s).isSome = true := fun hcon => h (Or.inr hcon)
    intro b hb
    simp only [cellInt] at hb
    rw [if_neg hs] at hb
    cases hp : pyInt? s with
    | some n => exact hnum (by simp [hp])
    | none => rw [hp] at hb; cases hb

theorem cellFloat_ok_eq (c : StrCell) (h : cellFloatOk c) :
    cellFloat c = .ok (floatCellVal c) := by
  cases c with
  | none => rfl
  | some s =>
    unfold cellFloatOk at h
    unfold cellFloat floatCellVal
    by_cases hs : s = ""
    · simp [hs]
    · rcases h with h1 | h2
      · exact absurd h1 hs
      · obtain ⟨q, hq⟩ := Option.isSome_iff_exists.mp h2
        simp [hs, hq]

theorem cellFloat_err (c : StrCell) (h : ¬ cellFloatOk c) : ∀ b, cellFloat c ≠ .ok b := by
  cases c with
  | none => exact absurd trivial h
  | some s =>
    unfold cellFloatOk at h
    have hs : ¬ s = "" := fun hcon => h (Or.inl hcon)
    have hnum : ¬ (pyFloat? s).isSome = true := fun hcon => h (Or.inr hcon)
    intro b hb
    simp only [cellFloat] at hb
    rw [if_neg hs] at hb
    cases hp : pyFloat? s with
    | some q => exact hnum (by simp [hp])
    | none => rw [hp] at hb; cases hb

theorem convEntry_ok (int_keys float_keys : List String) (p : String × List StrCell)
    (h : colConvOk int_keys float_keys p.1 p.2) :
    convEntry int_keys float_keys p = .ok (convTarget int_keys float_keys p) := by
  unfold colConvOk at h
  unfold convEntry convTarget
  by_cases hik : p.1 ∈ int_keys
  · rw [if_pos hik] at h ⊢
    rw [if_pos hik]
    unfold convert_list_from_str
    rw [if_pos rfl]
    rw [mapE_map cellInt intCellVal p.2 (fun c hc => cellInt_ok_eq c (h c hc))]
  · rw [if_neg hik] at h ⊢
    rw [if_neg hik]
    by_cases hfk : p.1 ∈ float_keys
    · rw [if_pos hfk] at h ⊢
      rw [if_pos hfk]
      unfold convert_list_from_str
      rw [if_neg (by decide), if_pos rfl]
      rw [mapE_map cellFloat floatCellVal p.2 (fun c hc => cellFloat_ok_eq c (h c hc))]
    · rw [if_neg hfk, if_neg hfk]

theorem convEntry_err (int_keys float_keys : List String) (p : String × List StrCell)
    (h : ¬ colConvOk int_keys float_keys p.1 p.2) :
    ∀ b, convEntry int_keys float_keys p ≠ .ok b := by
  unfold colConvOk at h
  intro b hb
  unfold convEntry at hb
  by_cases hik : p.1 ∈ int_keys
  · rw [if_pos hik] at h hb
    push_neg at h
    obtain ⟨c, hc, hbad⟩ := h
    obtain ⟨e, he⟩ := mapE_error_of_mem cellInt p.2 c hc (cellInt_err c hbad)
    unfold convert_list_from_str at hb
    rw [if_pos rfl, he] at hb
    cases hb
  · rw [if_neg hik] at h hb
    by_cases hfk : p.1 ∈ float_keys
    · rw [if_pos hfk] at h hb
      push_neg at h
      obtain ⟨c, hc, hbad⟩ := h
      obtain ⟨e, he⟩ := mapE_error_of_mem cellFloat p.2 c hc (cellFloat_err c hbad)
      unfold convert_list_from_str at hb
      rw [if_neg (by decide), if_pos rfl, he] at hb
      cases hb
    · rw [if_neg hfk] at h
      exact h trivial

/-- Claim C6: for every column designated in `int_keys` or `float_keys`,
type coercion maps null and empty-string cells to null (never to zero) and
numeric strings to their values, leaves non-designated columns untouched,
and the conversion succeeds exactly when no designated column holds a
non-empty, non-numeric string — otherwise the coercion error propagates to
the caller as the result of `convert_dict_dtypes`. -/
theorem claim_C6 (d : List (String × List StrCell)) (int_keys float_keys : List String) :
    (isOkE (convert_dict_dtypes d int_keys float_keys) = true ↔
      ∀ p ∈ d, colConvOk int_keys float_keys p.1 p.2) ∧
    (∀ out, convert_dict_dtypes d int_keys float_keys = .ok out →
      out = d.map (convTarget int_keys float_keys)) ∧
    intCellVal none = none ∧ intCellVal (some "") = none ∧
    floatCellVal none = none ∧ floatCellVal (some "") = none ∧
    (∀ (s : String) (n : Int), s ≠ "" → pyInt? s = some n →
      intCellVal (some s) = some n) ∧
    (∀ (s : String) (q : PyFloat), s ≠ "" → pyFloat? s = some q →
      floatCellVal (some s) = some q) := by
  have hok : (∀ p ∈ d, colConvOk int_keys float_keys p.1 p.2) →
      convert_dict_dtypes d int_keys float_keys =
        .ok (d.map (convTarget int_keys float_keys)) := by
    intro hall
    unfold convert_dict_dtypes
    exact mapE_map _ _ d (fun p hp => convEntry_ok int_keys float_keys p (hall p hp))
  refine ⟨⟨?_, ?_⟩, ?_, rfl, rfl, rfl, rfl, ?_, ?_⟩
  · intro h p hp
    by_contra hbad
    obtain ⟨e, he⟩ :=
      mapE_error_of_mem (convEntry int_keys float_keys) d p hp
        (convEntry_err int_keys float_keys p hbad)
    unfold convert_dict_dtypes at h
    rw [he] at h
    simp [isOkE] at h
  · intro hall
    rw [hok hall]
    rfl
  · intro out hout
    have hall : ∀ p ∈ d, colConvOk int_keys float_keys p.1 p.2 := by
      intro p hp
      by_contra hbad
      obtain ⟨b, hb⟩ := mapE_ok_mem (convEntry int_keys float_keys) d out hout p hp
      exact convEntry_err int_keys float_keys p hbad b hb
    have h12 := (hok hall).symm.trans hout
    injection h12 with h3
    exact h3.symm
  · intro s n hs hn
    simp [intCellVal, hs, hn]
  · intro s q hs hq
    simp [floatCellVal, hs, hq]

/-- Witness for C6: converting the column `x = ["3", "", "7"]` with
`int_keys = ["x"]` yields `[3, null, 7]` — the empty string becomes null,
not zero — while the non-designated column `y` is untouched. -/
theorem claim_C6_witness :
    [("x", [some "3", some "", some "7"]), ("y", [some "a"])].map
        (convTarget ["x"] []) =
      [("x", ConvCol.ints [some 3, none, some 7]),
       ("y", ConvCol.strs [some "a"])] := by
  have h :=
    (claim_C6 [("x", [some "3", some "", some "7"]), ("y", [some "a"])] ["x"] []).2.1
      [("x", ConvCol.ints [some 3, none, some 7]), ("y", ConvCol.strs [some "a"])]
      (by rfl)
  exact h.symm

/-! ### Claim C2: reassembly lemmas -/

theorem processFields_cons {α : Type u} (ml : List String) (i : Nat) (stat : String)
    (vals : List α) (rest : List (String × List α)) (used : List String)
    (meta cst : List (String × Option α)) :
    processFields ml i ((stat, vals) :: rest) used meta cst =
      if stat ∈ ml then processFields ml i rest used (dictInsert meta stat vals[i]?) cst
      else if stat ∈ used then processFields ml i rest used meta cst
      else
        match vals[i]? with
        | some v => processFields ml i rest (used ++ [stat]) meta (dictInsert cst stat (some v))
        | none => processFields ml i rest used meta (dictInsert cst stat none) := rfl

theorem getLast?_cons2 {β : Type v} (a : β) (l : List β) :
    (a :: l).getLast? =
      match l.getLast? with
      | none => some a
      | some b => some b := by
  induction l generalizing a with
  | nil => rfl
  | cons b t ih =>
    cases h : (b :: t).getLast? with
    | some c => rw [List.getLast?_cons_cons, h]
    | none =>
      exfalso
      have h2 := ih b
      rw [h] at h2
      cases ht : t.getLast? with
      | none => rw [ht] at h2; cases h2
      | some c => rw [ht] at h2; cases h2

theorem metaStep_eq {α : Type u} (ml : List String) (i : Nat)
    (m : List (String × Option α)) (stat : String) (vals : List α) :
    metaStep ml i m (stat, vals) =
      if stat ∈ ml then dictInsert m stat vals[i]? else m := rfl

theorem processFields_meta {α : Type u} (ml : List String) (i : Nat) :
    ∀ (fields : List (String × List α)) (used : List String)
      (meta cst : List (String × Option α)),
      (processFields ml i fields used meta cst).2.1 =
        fields.foldl (metaStep ml i) meta := by
  intro fields
  induction fields with
  | nil => intros; rfl
  | cons q rest ih =>
    intro used meta cst
    cases q with
    | mk stat vals =>
      rw [processFields_cons, List.foldl_cons, metaStep_eq]
      by_cases hml : stat ∈ ml
      · rw [if_pos hml, if_pos hml, ih]
      · rw [if_neg hml, if_neg hml]
        by_cases hu : stat ∈ used
        · rw [if_pos hu, ih]
        · rw [if_neg hu]
          cases hv : vals[i]? with
          | some v => rw [ih]
          | none => rw [ih]

theorem foldl_meta_lookup {α : Type u} (ml : List String) (i : Nat) (f : String)
    (hf : f ∈ ml) :
    ∀ (fields : List (String × List α)) (meta : List (String × Option α)),
      dlookup (fields.foldl (metaStep ml i) meta) f =
        match ((fields.filter (fun q => q.1 = f)).map Prod.snd).getLast? with
        | some vals => some vals[i]?
        | none => dlookup meta f := by
  intro fields
  induction fields with
  | nil => intro meta; rfl
  | cons q rest ih =>
    intro meta
    cases q with
    | mk stat vals =>
      rw [List.foldl_cons, List.filter_cons, metaStep_eq]
      by_cases hsf : stat = f
      · have hml2 : stat ∈ ml := hsf ▸ hf
        rw [if_pos hml2, if_pos (show decide ((stat, vals).1 = f) = true by simp [hsf]),
          List.map_cons, ih]
        cases hrest : ((rest.filter (fun q => q.1 = f)).map Prod.snd).getLast? with
        | some vs => rw [getLast?_cons2, hrest]
        | none =>
          rw [getLast?_cons2, hrest, dlookup_dictInsert, if_pos hsf.symm]
      · rw [if_neg (show ¬ decide ((stat, vals).1 = f) = true by simp [hsf])]
        by_cases hml2 : stat ∈ ml
        · rw [if_pos hml2, ih]
          cases hrest : ((rest.filter (fun q => q.1 = f)).map Prod.snd).getLast? with
          | some vs => rfl
          | none =>
            rw [dlookup_dictInsert, if_neg (fun hh => hsf hh.symm)]
        · rw [if_neg hml2, ih]

theorem foldl_inner_bind {α : Type u} (ml : List String) (i : Nat) :
    ∀ (cats : List (String × List (String × List α))) (meta : List (String × Option α)),
      cats.foldl (fun m c => c.2.foldl (metaStep ml i) m) meta =
        (cats.flatMap (fun c => c.2)).foldl (metaStep ml i) meta := by
  intro cats
  induction cats with
  | nil => intro meta; rfl
  | cons c rest ih =>
    intro meta
    rw [List.foldl_cons, List.flatMap_cons, List.foldl_append, ih]

theorem processCats_meta {α : Type u} (ml : List String) (i : Nat) :
    ∀ (cats : List (String × List (String × List α))) (used : List String)
      (meta : List (String × Option α)) (statsD : List (String × List (String × Option α))),
      (processCats ml i cats used meta statsD).1 =
        cats.foldl (fun m c => c.2.foldl (metaStep ml i) m) meta := by
  intro cats
  induction cats with
  | nil => intros; rfl
  | cons c rest ih =>
    intro used meta statsD
    cases c with
    | mk cid fields =>
      show (processCats ml i rest (processFields ml i fields used meta []).1
          (processFields ml i fields used meta []).2.1 _).1 = _
      rw [ih, List.foldl_cons]
      rw [processFields_meta]

/-- The meta-data rule of the reassembly loop: for a meta field, the stored
value is the row-indexed entry of the last column of that name across all
categories in iteration order (`none` when the index is out of range for
that column; the key is absent when no category carries the field). -/
theorem buildRecord_meta {α : Type u} (ml : List String)
    (cats : List (String × List (String × List α))) (i : Nat) (f : String)
    (hf : f ∈ ml) :
    dlookup (buildRecord ml cats i).meta_data f =
      match (metaOccs cats f).getLast? with
      | some vals => some vals[i]?
      | none => none := by
  show dlookup (processCats ml i cats [] [] []).1 f = _
  rw [processCats_meta, foldl_inner_bind, foldl_meta_lookup ml i f hf]
  rfl

theorem processCats_cons {α : Type u} (ml : List String) (i : Nat) (cid : String)
    (fields : List (String × List α)) (rest : List (String × List (String × List α)))
    (used : List String) (meta : List (String × Option α))
    (statsD : List (String × List (String × Option α))) :
    processCats ml i ((cid, fields) :: rest) used meta statsD =
      processCats ml i rest (processFields ml i fields used meta []).1
        (processFields ml i fields used meta []).2.1
        (dictInsert statsD cid (processFields ml i fields used meta []).2.2) := rfl

theorem dlookup_none_keys {α : Type u} (d : List (String × α)) (f : String)
    (h : dlookup d f = none) : ∀ q ∈ d, q.1 ≠ f := by
  intro q hq
  induction d with
  | nil => simp at hq
  | cons p t ih =>
    rw [dlookup_cons] at h
    by_cases hp : p.1 = f
    · rw [if_pos hp] at h; cases h
    · rw [if_neg hp] at h
      rcases List.mem_cons.mp hq with rfl | h2
      · exact hp
      · exact ih h h2

theorem processFields_used_mono {α : Type u} (ml : List String) (i : Nat) :
    ∀ (fields : List (String × List α)) (used : List String)
      (meta cst : List (String × Option α)) (x : String), x ∈ used →
      x ∈ (processFields ml i fields used meta cst).1 := by
  intro fields
  induction fields with
  | nil => intro used meta cst x hx; exact hx
  | cons q rest ih =>
    intro used meta cst x hx
    cases q with
    | mk stat vals =>
      rw [processFields_cons]
      by_cases hml : stat ∈ ml
      · rw [if_pos hml]; exact ih _ _ _ x hx
      · rw [if_neg hml]
        by_cases hu : stat ∈ used
        · rw [if_pos hu]; exact ih _ _ _ x hx
        · rw [if_neg hu]
          cases hv : vals[i]? with
          | some v => exact ih _ _ _ x (by simp [hx])
          | none => exact ih _ _ _ x hx

theorem processFields_after {α : Type u} (ml : List String) (i : Nat) (f : String) :
    ∀ (fields : List (String × List α)) (used : List String)
      (meta cst : List (String × Option α)), f ∈ used →
      dlookup (processFields ml i fields used meta cst).2.2 f = dlookup cst f := by
  intro fields
  induction fields with
  | nil => intro used meta cst _; rfl
  | cons q rest ih =>
    intro used meta cst hfu
    cases q with
    | mk stat vals =>
      rw [processFields_cons]
      by_cases hml : stat ∈ ml
      · rw [if_pos hml]; exact ih _ _ _ hfu
      · rw [if_neg hml]
        by_cases hu : stat ∈ used
        · rw [if_pos hu]; exact ih _ _ _ hfu
        · rw [if_neg hu]
          have hne : ¬ f = stat := fun hh => hu (hh ▸ hfu)
          cases hv : vals[i]? with
          | some v =>
            rw [ih _ _ _ (by simp [hfu]), dlookup_dictInsert, if_neg hne]
          | none =>
            rw [ih _ _ _ hfu, dlookup_dictInsert, if_neg hne]

theorem processFields_no_key {α : Type u} (ml : List String) (i : Nat) (f : String) :
    ∀ (fields : List (String × List α)) (used : List String)
      (meta cst : List (String × Option α)), (∀ q ∈ fields, q.1 ≠ f) →
      dlookup (processFields ml i fields used meta cst).2.2 f = dlookup cst f ∧
      (f ∈ (processFields ml i fields used meta cst).1 ↔ f ∈ used) := by
  intro fields
  induction fields with
  | nil => intro used meta cst _; exact ⟨rfl, Iff.rfl⟩
  | cons q rest ih =>
    intro used meta cst hkeys
    cases q with
    | mk stat vals =>
      have hne : stat ≠ f := hkeys (stat, vals) (by simp)
      have hrest : ∀ q ∈ rest, q.1 ≠ f := fun q hq => hkeys q (by simp [hq])
      rw [processFields_cons]
      by_cases hml : stat ∈ ml
      · rw [if_pos hml]; exact ih _ _ _ hrest
      · rw [if_neg hml]
        by_cases hu : stat ∈ used
        · rw [if_pos hu]; exact ih _ _ _ hrest
        · rw [if_neg hu]
          cases hv : vals[i]? with
          | some v =>
            refine ⟨?_, ?_⟩
            · rw [(ih _ _ _ hrest).1, dlookup_dictInsert,
                if_neg (fun hh => hne hh.symm)]
            · rw [(ih _ _ _ hrest).2]
              constructor
              · intro hmem
                rcases List.mem_append.mp hmem with h1 | h2
                · exact h1
                · simp at h2
                  exact absurd h2.symm hne
              · intro hmem
                exact List.mem_append.mpr (Or.inl hmem)
          | none =>
            refine ⟨?_, (ih _ _ _ hrest).2⟩
            rw [(ih _ _ _ hrest).1, dlookup_dictInsert,
              if_neg (fun hh => hne hh.symm)]

theorem processFields_first {α : Type u} (ml : List String) (i : Nat) (f : String)
    (hfml : f ∉ ml) :
    ∀ (fields : List (String × List α)) (used : List String)
      (meta cst : List (String × Option α)) (col : List α) (hi : i < col.length),
      f ∉ used → dlookup fields f = some col →
      dlookup (processFields ml i fields used meta cst).2.2 f =
        some (some (col.get ⟨i, hi⟩)) ∧
      f ∈ (processFields ml i fields used meta cst).1 := by
  intro fields
  induction fields with
  | nil => intro used meta cst col hi _ hcol; cases hcol
  | cons q rest ih =>
    intro used meta cst col hi hfu hcol
    cases q with
    | mk stat vals =>
      rw [dlookup_cons] at hcol
      by_cases hsf : stat = f
      · rw [if_pos hsf] at hcol
        injection hcol with hcol2
        subst hcol2
        rw [processFields_cons]
        rw [if_neg (fun hh => hfml (hsf ▸ hh)), if_neg (fun hh => hfu (hsf ▸ hh))]
        have hv : vals[i]? = some (vals.get ⟨i, hi⟩) := List.getElem?_eq_getElem hi
        rw [hv]
        constructor
        · rw [processFields_after ml i f rest _ _ _ (by simp [hsf])]
          rw [dlookup_dictInsert, if_pos hsf.symm]
        · exact processFields_used_mono ml i rest _ _ _ f (by simp [hsf])
      · rw [if_neg hsf] at hcol
        rw [processFields_cons]
        by_cases hml : stat ∈ ml
        · rw [if_pos hml]; exact ih _ _ _ col hi hfu hcol
        · rw [if_neg hml]
          by_cases hu : stat ∈ used
          · rw [if_pos hu]; exact ih _ _ _ col hi hfu hcol
          · rw [if_neg hu]
            have hfu2 : f ∉ used ++ [stat] := by
              intro hmem
              rcases List.mem_append.mp hmem with h1 | h2
              · exact hfu h1
              · simp at h2
                exact hsf h2.symm
            cases hv : vals[i]? with
            | some v => exact ih _ _ _ col hi hfu2 hcol
            | none => exact ih _ _ _ col hi hfu hcol

theorem processCats_lookup_other {α : Type u} (ml : List String) (i : Nat) (cid : String) :
    ∀ (cs : List (String × List (String × List α))) (used : List String)
      (meta : List (String × Option α)) (statsD : List (String × List (String × Option α))),
      cid ∉ cs.map Prod.fst →
      dlookup (processCats ml i cs used meta statsD).2 cid = dlookup statsD cid := by
  intro cs
  induction cs with
  | nil => intro used meta statsD _; rfl
  | cons c rest ih =>
    intro used meta statsD hmem
    cases c with
    | mk cid2 fields =>
      rw [processCats_cons]
      have h1 : cid ∉ rest.map Prod.fst := by
        intro hcon
        exact hmem (by simp [hcon])
      have h2 : cid2 ≠ cid := by
        intro hcon
        exact hmem (by simp [hcon])
      rw [ih _ _ _ h1, dlookup_dictInsert, if_neg (fun hh => h2 hh.symm)]

theorem processCats_after {α : Type u} (ml : List String) (i : Nat) (f : String) :
    ∀ (cs : List (String × List (String × List α))) (used : List String)
      (meta : List (String × Option α)) (statsD : List (String × List (String × Option α))),
      f ∈ used → (cs.map Prod.fst).Nodup →
      ∀ c ∈ cs, ∃ st, dlookup (processCats ml i cs used meta statsD).2 c.1 = some st ∧
        dlookup st f = none := by
  intro cs
  induction cs with
  | nil => intro used meta statsD _ _ c hc; simp at hc
  | cons c0 rest ih =>
    intro used meta statsD hfu hnodup c hc
    cases c0 with
    | mk cid fields =>
      rw [processCats_cons]
      have hused2 : f ∈ (processFields ml i fields used meta []).1 :=
        processFields_used_mono ml i fields used meta [] f hfu
      have hnodup2 : (rest.map Prod.fst).Nodup := by
        rw [List.map_cons] at hnodup
        exact hnodup.of_cons
      rcases List.mem_cons.mp hc with rfl | hc2
      · have hnotin : cid ∉ rest.map Prod.fst := by
          rw [List.map_cons] at hnodup
          exact (List.nodup_cons.mp hnodup).1
        refine ⟨(processFields ml i fields used meta []).2.2, ?_, ?_⟩
        · rw [processCats_lookup_other ml i cid rest _ _ _ hnotin,
            dlookup_dictInsert, if_pos rfl]
        · rw [processFields_after ml i f fields used meta [] hfu]
          rfl
      · exact ih _ _ _ hused2 hnodup2 c hc2

theorem processCats_owner {α : Type u} (ml : List String) (i : Nat) (f : String)
    (hfml : f ∉ ml) (c0 : String × List (String × List α))
    (post : List (String × List (String × List α))) (col : List α)
    (hcol : dlookup c0.2 f = some col) (hi : i < col.length) :
    ∀ (pre : List (String × List (String × List α))) (used : List String)
      (meta : List (String × Option α)) (statsD : List (String × List (String × Option α))),
      f ∉ used →
      (∀ c ∈ pre, dlookup c.2 f = none) →
      ((pre ++ c0 :: post).map Prod.fst).Nodup →
      (∃ st0, dlookup (processCats ml i (pre ++ c0 :: post) used meta statsD).2 c0.1 =
          some st0 ∧ dlookup st0 f = some (some (col.get ⟨i, hi⟩))) ∧
      (∀ c ∈ post, ∃ st,
          dlookup (processCats ml i (pre ++ c0 :: post) used meta statsD).2 c.1 = some st ∧
          dlookup st f = none) := by
  intro pre
  induction pre with
  | nil =>
    intro used meta statsD hfu _ hnodup
    rw [List.nil_append] at hnodup ⊢
    cases c0 with
    | mk cid fields =>
      rw [processCats_cons]
      have hfirst := processFields_first ml i f hfml fields used meta [] col hi hfu hcol
      have hused2 : f ∈ (processFields ml i fields used meta []).1 := hfirst.2
      have hnodup2 : (post.map Prod.fst).Nodup := by
        rw [List.map_cons] at hnodup
        exact hnodup.of_cons
      have hnotin : cid ∉ post.map Prod.fst := by
        rw [List.map_cons] at hnodup
        exact (List.nodup_cons.mp hnodup).1
      constructor
      · refine ⟨(processFields ml i fields used meta []).2.2, ?_, hfirst.1⟩
        rw [processCats_lookup_other ml i cid post _ _ _ hnotin,
          dlookup_dictInsert, if_pos rfl]
      · intro c hc
        exact processCats_after ml i f post _ _ _ hused2 hnodup2 c hc
  | cons cp pre2 ih =>
    intro used meta statsD hfu hpre hnodup
    cases cp with
    | mk cid fields =>
      rw [List.cons_append, processCats_cons]
      have hCkeys : ∀ q ∈ fields, q.1 ≠ f :=
        dlookup_none_keys fields f (hpre (cid, fields) (by simp))
      have hnk := processFields_no_key ml i f fields used meta [] hCkeys
      have hfu2 : f ∉ (processFields ml i fields used meta []).1 := by
        intro hcon
        exact hfu (hnk.2.mp hcon)
      have hpre2 : ∀ c ∈ pre2, dlookup c.2 f = none := fun c hc => hpre c (by simp [hc])
      have hnodup2 : ((pre2 ++ c0 :: post).map Prod.fst).Nodup := by
        rw [List.cons_append, List.map_cons] at hnodup
        exact hnodup.of_cons
      exact ih _ _ _ hfu2 hpre2 hnodup2

theorem processFields_stats_no_meta {α : Type u} (ml : List String) (i : Nat)
    (f : String) (hf : f ∈ ml) :
    ∀ (fields : List (String × List α)) (used : List String)
      (meta cst : List (String × Option α)),
      dlookup (processFields ml i fields used meta cst).2.2 f = dlookup cst f := by
  intro fields
  induction fields with
  | nil => intros; rfl
  | cons q rest ih =>
    intro used meta cst
    cases q with
    | mk stat vals =>
      rw [processFields_cons]
      by_cases hml : stat ∈ ml
      · rw [if_pos hml]; exact ih _ _ _
      · have hne : ¬ f = stat := fun hh => hml (hh ▸ hf)
        rw [if_neg hml]
        by_cases hu : stat ∈ used
        · rw [if_pos hu]; exact ih _ _ _
        · rw [if_neg hu]
          cases hv : vals[i]? with
          | some v => rw [ih _ _ _, dlookup_dictInsert, if_neg hne]
          | none => rw [ih _ _ _, dlookup_dictInsert, if_neg hne]

theorem mem_dictInsert {α : Type u} (d : List (String × α)) (k : String) (v : α) :
    ∀ e ∈ dictInsert d k v, e ∈ d ∨ e = (k, v) := by
  intro e he
  unfold dictInsert at he
  by_cases hmem : d.any (fun p => p.1 = k) = true
  · rw [if_pos hmem] at he
    obtain ⟨p, hp, hpe⟩ := List.mem_map.mp he
    by_cases hk : p.1 = k
    · rw [if_pos hk] at hpe
      exact Or.inr hpe.symm
    · rw [if_neg hk] at hpe
      exact Or.inl (hpe ▸ hp)
  · rw [if_neg hmem] at he
    rcases List.mem_append.mp he with h1 | h2
    · exact Or.inl h1
    · simp at h2
      exact Or.inr h2

theorem processCats_stats_meta_absent {α : Type u} (ml : List String) (i : Nat)
    (f : String) (hf : f ∈ ml) :
    ∀ (cs : List (String × List (String × List α))) (used : List String)
      (meta : List (String × Option α)) (statsD : List (String × List (String × Option α))),
      (∀ e ∈ statsD, dlookup e.2 f = none) →
      ∀ e ∈ (processCats ml i cs used meta statsD).2, dlookup e.2 f = none := by
  intro cs
  induction cs with
  | nil => intro used meta statsD hinv e he; exact hinv e he
  | cons c rest ih =>
    intro used meta statsD hinv e he
    cases c with
    | mk cid fields =>
      rw [processCats_cons] at he
      refine ih _ _ _ ?_ e he
      intro e2 he2
      rcases mem_dictInsert statsD cid _ e2 he2 with h1 | h2
      · exact hinv e2 h1
      · rw [h2]
        rw [processFields_stats_no_meta ml i f hf fields used meta []]
        rfl

/-- Claim C2 (amended): in the reassembly loop,
(1, 2) both orientation functions build one record per reference-column
entry via the shared record builder;
(3) a meta-data field takes the value of the **last** category in iteration
order whose columns contain it (indexed at the row, null when that column is
short), not the first;
(4) no category stats sub-mapping ever contains a meta-data field;
(5) a non-meta field is owned by the first category containing it provided
that category's column covers the row index: that category's stats
sub-mapping holds the value and every later category skips the field. -/
theorem claim_C2 :
    (∀ (α : Type u) (ml : List String) (d : List (String × List (String × List α)))
        (sched : List (String × List α)) (ids : List α),
        dlookup d "schedule" = some sched → dlookup sched "match_id" = some ids →
        change_tms_dict_orientation ml d =
          some ((List.range ids.length).map (buildRecord ml d))) ∧
    (∀ (α : Type u) (ml : List String) (d : List (String × List (String × List α)))
        (st : List (String × List α)) (ids : List α),
        dlookup d "stats" = some st → dlookup st "team_id" = some ids →
        change_tss_dict_orientation ml d =
          some ((List.range ids.length).map (buildRecord ml d))) ∧
    (∀ (α : Type u) (ml : List String) (cats : List (String × List (String × List α)))
        (i : Nat) (f : String), f ∈ ml →
        dlookup (buildRecord ml cats i).meta_data f =
          match (metaOccs cats f).getLast? with
          | some vals => some vals[i]?
          | none => none) ∧
    (∀ (α : Type u) (ml : List String) (cats : List (String × List (String × List α)))
        (i : Nat) (f : String), f ∈ ml →
        ∀ e ∈ (buildRecord ml cats i).stats, dlookup e.2 f = none) ∧
    (∀ (α : Type u) (ml : List String) (i : Nat) (f : String)
        (pre : List (String × List (String × List α)))
        (c0 : String × List (String × List α))
        (post : List (String × List (String × List α)))
        (col : List α) (hi : i < col.length), f ∉ ml →
        dlookup c0.2 f = some col →
        (∀ c ∈ pre, dlookup c.2 f = none) →
        ((pre ++ c0 :: post).map Prod.fst).Nodup →
        (∃ st0, dlookup (buildRecord ml (pre ++ c0 :: post) i).stats c0.1 = some st0 ∧
            dlookup st0 f = some (some (col.get ⟨i, hi⟩))) ∧
        (∀ c ∈ post, ∃ st,
            dlookup (buildRecord ml (pre ++ c0 :: post) i).stats c.1 = some st ∧
            dlookup st f = none)) := by
  refine ⟨?_, ?_, ?_, ?_, ?_⟩
  · intro α ml d sched ids h1 h2
    unfold change_tms_dict_orientation
    rw [h1]
    show (dlookup sched "match_id").map _ = _
    rw [h2]
    rfl
  · intro α ml d st ids h1 h2
    unfold change_tss_dict_orientation
    rw [h1]
    show (dlookup st "team_id").map _ = _
    rw [h2]
    rfl
  · intro α ml cats i f hf
    exact buildRecord_meta ml cats i f hf
  · intro α ml cats i f hf e he
    exact processCats_stats_meta_absent ml i f hf cats [] [] [] (by intro e2 he2; simp at he2)
      e he
  · intro α ml i f pre c0 post col hi hfml hcol hpre hnodup
    exact processCats_owner ml i f hfml c0 post col hcol hi pre [] [] []
      (by simp) hpre hnodup

/-- Counterexample for claim C2: with meta list `["date"]` and categories
`schedule` before `shooting`, both containing `date`, the output record's
`meta_data.date` holds the `shooting` (last) value `"dB1"`, not the
`schedule` (first) value `"dA1"` asserted by the claim. -/
theorem claim_C2_counterexample :
    change_tms_dict_orientation c2Meta c2Dict =
      some
        [StatRecord.mk [("date", some "dB1")]
            [("schedule", [("match_id", some "m1"), ("x", some "x1")]), ("shooting", [])],
         StatRecord.mk [("date", none)]
            [("schedule", [("match_id", some "m2"), ("x", none)]),
             ("shooting", [("x", some "xB2")])]] ∧
    dlookup (buildRecord c2Meta c2Dict 0).meta_data "date" = some (some "dB1") ∧
    (some (some "dB1") : Option (Option String)) ≠ some (some "dA1") := by
  refine ⟨rfl, rfl, ?_⟩
  decide

/-- Witness for C2: the orientation function applied to the concrete
two-category dict builds one record per `schedule.match_id` entry. -/
theorem claim_C2_witness :
    change_tms_dict_orientation c2Meta c2Dict =
      some ((List.range (["m1", "m2"] : List String).length).map
        (buildRecord c2Meta c2Dict)) :=
  claim_C2.1 String c2Meta c2Dict
    [("match_id", ["m1", "m2"]), ("date", ["dA1", "dA2"]), ("x", ["x1"])]
    ["m1", "m2"] (by rfl) (by rfl)

/-! ### C7: caption matching and duplicate-value suppression -/

/-- The inner pattern loop only appends: the new pairs all belong to the
current table, record one of its nonempty matches, and carry values that
were not recorded before the table was processed. -/
theorem gtfcFoldl_structure (t : HTable) (ps : List RegexFn)
    (acc : List (HTable × List String)) :
    ∃ new : List (HTable × List String),
      ps.foldl (gtfcPatStep t) acc = acc ++ new ∧
      ∀ pr ∈ new, pr.1 = t ∧ pr.2 ≠ [] ∧ (∃ p ∈ ps, p (tableNameD t) = pr.2) ∧
        pr.2 ∉ acc.map Prod.snd := by
  induction ps generalizing acc with
  | nil => exact ⟨[], by simp, by simp⟩
  | cons p ps ih =>
    rw [List.foldl_cons]
    by_cases hc : p (tableNameD t) ≠ [] ∧
        ¬ ((acc.map Prod.snd).contains (p (tableNameD t)) = true)
    · have hstep : gtfcPatStep t acc p = acc ++ [(t, p (tableNameD t))] := by
        simp only [gtfcPatStep, if_pos hc]
      obtain ⟨new2, heq2, hnew2⟩ := ih (acc ++ [(t, p (tableNameD t))])
      refine ⟨(t, p (tableNameD t)) :: new2, ?_, ?_⟩
      · rw [hstep, heq2, List.append_assoc, List.singleton_append]
      · intro pr hpr
        rcases List.mem_cons.mp hpr with h | h
        · subst h
          refine ⟨rfl, hc.1, ⟨p, List.mem_cons_self _ _, rfl⟩, ?_⟩
          intro hmem
          exact hc.2 (by simpa using hmem)
        · obtain ⟨h1, h2, ⟨q, hq, hqv⟩, h4⟩ := hnew2 pr h
          refine ⟨h1, h2, ⟨q, List.mem_cons_of_mem _ hq, hqv⟩, ?_⟩
          intro hmem
          exact h4 (by rw [List.map_append]; exact List.mem_append_left _ hmem)
    · have hstep : gtfcPatStep t acc p = acc := by
        simp only [gtfcPatStep, if_neg hc]
      rw [hstep]
      obtain ⟨new2, heq2, hnew2⟩ := ih acc
      refine ⟨new2, heq2, ?_⟩
      intro pr hpr
      obtain ⟨h1, h2, ⟨q, hq, hqv⟩, h4⟩ := hnew2 pr hpr
      exact ⟨h1, h2, ⟨q, List.mem_cons_of_mem _ hq, hqv⟩, h4⟩

/-- Values already recorded stay recorded through the inner pattern loop. -/
theorem gtfcFoldl_mem_mono (t : HTable) (ps : List RegexFn)
    (acc : List (HTable × List String)) (v : List String)
    (h : v ∈ acc.map Prod.snd) :
    v ∈ (ps.foldl (gtfcPatStep t) acc).map Prod.snd := by
  obtain ⟨new, heq, -⟩ := gtfcFoldl_structure t ps acc
  rw [heq, List.map_append]
  exact List.mem_append_left _ h

/-- The inner pattern loop preserves distinctness of the recorded values. -/
theorem gtfcFoldl_nodup (t : HTable) (ps : List RegexFn)
    (acc : List (HTable × List String)) (h : (acc.map Prod.snd).Nodup) :
    ((ps.foldl (gtfcPatStep t) acc).map Prod.snd).Nodup := by
  induction ps generalizing acc with
  | nil => exact h
  | cons p ps ih =>
    rw [List.foldl_cons]
    by_cases hc : p (tableNameD t) ≠ [] ∧
        ¬ ((acc.map Prod.snd).contains (p (tableNameD t)) = true)
    · have hstep : gtfcPatStep t acc p = acc ++ [(t, p (tableNameD t))] := by
        simp only [gtfcPatStep, if_pos hc]
      rw [hstep]
      apply ih
      simp only [List.map_append, List.map_cons, List.map_nil]
      refine List.nodup_append.mpr ⟨h, List.nodup_singleton _,
        List.disjoint_singleton.mpr ?_⟩
      intro hmem
      exact hc.2 (by simpa using hmem)
    · have hstep : gtfcPatStep t acc p = acc := by
        simp only [gtfcPatStep, if_neg hc]
      rw [hstep]
      exact ih acc h

/-- After the inner pattern loop, every nonempty match of the current table
is recorded. -/
theorem gtfcFoldl_complete (t : HTable) (ps : List RegexFn)
    (acc : List (HTable × List String)) (p : RegexFn)
    (hne : p (tableNameD t) ≠ []) (hp : p ∈ ps) :
    p (tableNameD t) ∈ (ps.foldl (gtfcPatStep t) acc).map Prod.snd := by
  induction ps generalizing acc with
  | nil => cases hp
  | cons q ps ih =>
    rw [List.foldl_cons]
    rcases List.mem_cons.mp hp with h | h
    · subst h
      by_cases hc : p (tableNameD t) ≠ [] ∧
          ¬ ((acc.map Prod.snd).contains (p (tableNameD t)) = true)
      · have hstep : gtfcPatStep t acc p = acc ++ [(t, p (tableNameD t))] := by
          simp only [gtfcPatStep, if_pos hc]
        rw [hstep]
        apply gtfcFoldl_mem_mono
        simp
      · have hmem : p (tableNameD t) ∈ acc.map Prod.snd := by
          by_contra hno
          exact hc ⟨hne, fun hcon => hno (by simpa using hcon)⟩
        have hstep : gtfcPatStep t acc p = acc := by
          simp only [gtfcPatStep, if_neg hc]
        rw [hstep]
        exact gtfcFoldl_mem_mono t ps acc _ hmem
    · exact ih (gtfcPatStep t acc q) h

/-- Processing one more table preserves the caption-matching invariant. -/
theorem gtfcInv_step (patterns : List RegexFn) (done : List HTable) (t : HTable)
    (acc : List (HTable × List String)) (h : gtfcInv patterns done acc) :
    gtfcInv patterns (done ++ [t]) (gtfcTableStep patterns t acc) := by
  simp only [gtfcInv] at h ⊢
  obtain ⟨hnd, hidx, hcomp⟩ := h
  obtain ⟨new, heq, hnew⟩ := gtfcFoldl_structure t patterns acc
  refine ⟨gtfcFoldl_nodup t patterns acc hnd, ?_, ?_⟩
  · intro pr hpr
    simp only [gtfcTableStep] at hpr
    rw [heq] at hpr
    rcases List.mem_append.mp hpr with hin | hin
    · obtain ⟨i, hi, hy, hfirst⟩ := hidx pr hin
      have hilt : i < done.length := (List.getElem?_eq_some.mp hi).1
      refine ⟨i, ?_, hy, ?_⟩
      · rw [List.getElem?_append_left hilt]
        exact hi
      · intro j hj t' ht'
        rw [List.getElem?_append_left (lt_trans hj hilt)] at ht'
        exact hfirst j hj t' ht'
    · obtain ⟨hpr1, hpr2, hy, hnot⟩ := hnew pr hin
      refine ⟨done.length, ?_, ?_, ?_⟩
      · rw [hpr1]
        exact List.getElem?_concat_length done t
      · simp only [gtfcYields]
        refine ⟨hpr2, ?_⟩
        rw [hpr1]
        exact hy
      · intro j hj t' ht' hyt'
        rw [List.getElem?_append_left hj] at ht'
        exact hnot (hcomp t' (List.getElem?_mem ht') pr.2 hyt')
  · intro t' ht' v hyv
    rcases List.mem_append.mp ht' with hin | hin
    · simp only [gtfcTableStep]
      exact gtfcFoldl_mem_mono t patterns acc v (hcomp t' hin v hyv)
    · have ht : t' = t := by simpa using hin
      subst ht
      simp only [gtfcYields] at hyv
      obtain ⟨hvne, p, hp, hpv⟩ := hyv
      simp only [gtfcTableStep]
      rw [← hpv]
      exact gtfcFoldl_complete t' patterns acc p (hpv.symm ▸ hvne) hp

/-- The caption-matching invariant propagates along the outer table loop. -/
theorem gtfcInv_foldl (patterns : List RegexFn) (ts : List HTable)
    (done : List HTable) (acc : List (HTable × List String))
    (h : gtfcInv patterns done acc) :
    gtfcInv patterns (done ++ ts)
      (ts.foldl (fun acc t => gtfcTableStep patterns t acc) acc) := by
  induction ts generalizing done acc with
  | nil => simpa using h
  | cons t ts ih =>
    rw [List.foldl_cons]
    have h3 := ih (done ++ [t]) (gtfcTableStep patterns t acc)
      (gtfcInv_step patterns done t acc h)
    simpa [List.append_assoc] using h3

/-- The recorded pairs of `get_tables_from_caption` satisfy the invariant
over the whole table list. -/
theorem gtfcInv_pairs (patterns : List RegexFn) (all_tables : List HTable) :
    gtfcInv patterns all_tables (gtfcPairs all_tables patterns) := by
  have h0 : gtfcInv patterns [] [] := by
    simp only [gtfcInv]
    refine ⟨List.nodup_nil, ?_, ?_⟩ <;> simp
  have h := gtfcInv_foldl patterns all_tables [] [] h0
  simpa [gtfcPairs] using h

/-- C7: `get_tables_from_caption` returns `none` exactly when no pattern
produces a nonempty match on any table name; the recorded match values are
pairwise distinct; every recorded pair sits at the first index of the table
list whose table yields its value (so among tables yielding the same match
value only the document-order-first one is selected for it); every yielded
value is recorded; and a nonempty selection is returned as the list of
selected tables.  The caption transformation is `tableNameD`, the code
transformation, which removes every occurrence of `Table`, not only a
suffix (see the counterexample). -/
theorem claim_C7 (all_tables : List HTable) (patterns : List RegexFn)
    (hcap : ∀ t ∈ all_tables, (t.caption).isSome = true) :
    (get_tables_from_caption all_tables patterns = none ↔
      ∀ t ∈ all_tables, ∀ p ∈ patterns, p (tableNameD t) = []) ∧
    ((gtfcPairs all_tables patterns).map Prod.snd).Nodup ∧
    (∀ pr ∈ gtfcPairs all_tables patterns,
      ∃ i : Nat, all_tables[i]? = some pr.1 ∧ gtfcYields patterns pr.1 pr.2 ∧
        ∀ j < i, ∀ t' : HTable, all_tables[j]? = some t' →
          ¬ gtfcYields patterns t' pr.2) ∧
    (∀ t ∈ all_tables, ∀ v : List String, gtfcYields patterns t v →
      v ∈ (gtfcPairs all_tables patterns).map Prod.snd) ∧
    (gtfcPairs all_tables patterns ≠ [] →
      get_tables_from_caption all_tables patterns =
        some ((gtfcPairs all_tables patterns).map Prod.fst)) := by
  have hinv := gtfcInv_pairs patterns all_tables
  simp only [gtfcInv] at hinv
  obtain ⟨hnd, hidx, hcomp⟩ := hinv
  have hsome : gtfcPairs all_tables patterns ≠ [] →
      get_tables_from_caption all_tables patterns =
        some ((gtfcPairs all_tables patterns).map Prod.fst) := by
    intro hne
    have hlen : (gtfcPairs all_tables patterns).length > 0 :=
      List.length_pos.mpr hne
    simp [get_tables_from_caption, hlen]
  refine ⟨⟨?_, ?_⟩, hnd, hidx, hcomp, hsome⟩
  · intro hnone t ht p hp
    by_contra hne
    have hy : gtfcYields patterns t (p (tableNameD t)) := ⟨hne, p, hp, rfl⟩
    have hmem := hcomp t ht _ hy
    have hpne : gtfcPairs all_tables patterns ≠ [] := by
      intro h0
      rw [h0] at hmem
      simp at hmem
    rw [hsome hpne] at hnone
    cases hnone
  · intro hall
    have hpairs : gtfcPairs all_tables patterns = [] := by
      by_contra hne
      obtain ⟨pr, hpr⟩ := List.exists_mem_of_ne_nil _ hne
      obtain ⟨i, hi, hy, -⟩ := hidx pr hpr
      simp only [gtfcYields] at hy
      obtain ⟨hvne, p, hp, hpv⟩ := hy
      exact hvne (hpv ▸ hall pr.1 (List.getElem?_mem hi) p hp)
    simp [get_tables_from_caption, hpairs]

/-- Witness for C7: two tables whose captions differ only by a trailing
`Table` yield the same match value; the first is selected, the duplicate is
dropped, and the result is not `none`. -/
theorem claim_C7_witness :
    (get_tables_from_caption [c7T1, c7T2] [c7WPat] = none ↔
      ∀ t ∈ [c7T1, c7T2], ∀ p ∈ [c7WPat], p (tableNameD t) = []) ∧
    ((gtfcPairs [c7T1, c7T2] [c7WPat]).map Prod.snd).Nodup ∧
    (∀ pr ∈ gtfcPairs [c7T1, c7T2] [c7WPat],
      ∃ i : Nat, [c7T1, c7T2][i]? = some pr.1 ∧ gtfcYields [c7WPat] pr.1 pr.2 ∧
        ∀ j < i, ∀ t' : HTable, [c7T1, c7T2][j]? = some t' →
          ¬ gtfcYields [c7WPat] t' pr.2) ∧
    (∀ t ∈ [c7T1, c7T2], ∀ v : List String, gtfcYields [c7WPat] t v →
      v ∈ (gtfcPairs [c7T1, c7T2] [c7WPat]).map Prod.snd) ∧
    (gtfcPairs [c7T1, c7T2] [c7WPat] ≠ [] →
      get_tables_from_caption [c7T1, c7T2] [c7WPat] =
        some ((gtfcPairs [c7T1, c7T2] [c7WPat]).map Prod.fst)) :=
  claim_C7 [c7T1, c7T2] [c7WPat] (by decide)

/-- Counterexample for C7: the claim describes the caption transformation as
stripping a literal `Table` SUFFIX, but the code removes every occurrence.
For the caption `Table A Table` the suffix-stripped name is `Table A` and
the pattern matches it, yet `get_tables_from_caption` returns `none`
because the code matches against `A`. -/
theorem claim_C7_counterexample :
    tableNameSuffixSpec c7BadTable = "Table A" ∧
    tableNameD c7BadTable = "A" ∧
    c7Pat (tableNameSuffixSpec c7BadTable) ≠ [] ∧
    get_tables_from_caption [c7BadTable] [c7Pat] = none := by
  refine ⟨by decide, by decide, by decide, by decide⟩

end Fbref
